import Mathlib

/-!
Verification of the trip-planner bot (src/: models.py, services.py, bot.py,
keyboards.py, config.py, storage.py) against its design specification.

Python text is embedded as `List Char`; Python `dict` (which preserves key
insertion order) is embedded as an association list whose operations mirror
CPython semantics: a new key is appended at the end, updating an existing key
keeps its position, deleting a key keeps the order of the remaining entries.
Python `set` values are embedded as duplicate-free lists (insertion order of a
set is never observed by the code: only size and membership are used).
-/

namespace TripBot

/-- Python `str.isspace` for the ASCII whitespace characters
(space, tab, newline, carriage return, vertical tab, form feed). -/
def pyIsSpace (c : Char) : Bool :=
  c = ' ' || c = '\t' || c = '\n' || c = '\r' || c = '\x0b' || c = '\x0c'

/-- Python `str.strip()`: remove leading and trailing whitespace. -/
def stripChars (l : List Char) : List Char :=
  ((l.dropWhile pyIsSpace).reverse.dropWhile pyIsSpace).reverse

/-- Python `str.split(sep)` for a one-character separator `sep`:
split on every occurrence, keeping empty pieces. -/
def splitOnChar (sep : Char) : List Char → List (List Char)
  | [] => [[]]
  | c :: t =>
    if c = sep then [] :: splitOnChar sep t
    else
      match splitOnChar sep t with
      | [] => [[c]]
      | h :: r => (c :: h) :: r

/-- Python `text.split("\n\n")`: split on each non-overlapping occurrence of
the two-character paragraph separator, left to right. -/
def splitNN : List Char → List (List Char)
  | [] => [[]]
  | [c] => [[c]]
  | c1 :: c2 :: t =>
    if c1 = '\n' ∧ c2 = '\n' then [] :: splitNN t
    else
      match splitNN (c2 :: t) with
      | [] => [[c1]]
      | h :: r => (c1 :: h) :: r

/-- Python `"\n\n".join(pieces)`. -/
def joinNN : List (List Char) → List Char
  | [] => []
  | [p] => p
  | p :: q :: ps => p ++ '\n' :: '\n' :: joinNN (q :: ps)

/-- Python `str.title()` restricted to ASCII letters: a letter that follows a
non-letter is uppercased, any other letter is lowercased. -/
def pyTitleGo : Bool → List Char → List Char
  | _, [] => []
  | prevAlpha, c :: t =>
    (if c.isAlpha then (if prevAlpha then c.toLower else c.toUpper) else c) ::
      pyTitleGo c.isAlpha t

/-- Python `str.title()` (see `pyTitleGo`). -/
def pyTitle (l : List Char) : List Char := pyTitleGo false l

/-- Decimal digits, fuel-based so that the kernel can evaluate it
(the fuel always suffices: a number has at most as many digits as its
value). -/
def natDigitsGo : Nat → Nat → List Char
  | 0, _ => []
  | fuel + 1, n =>
    if n < 10 then [Nat.digitChar n]
    else natDigitsGo fuel (n / 10) ++ [Nat.digitChar (n % 10)]

/-- Decimal digits of a natural number, most significant first
(the digits of Python `str(n)` for `n ≥ 0`). -/
def natDigits (n : Nat) : List Char := natDigitsGo (n + 1) n

/-- Python `f"{n:03d}"` for `n ≥ 0`: the decimal digits of `n`,
left-padded with zeros to at least width 3. -/
def pad3 (n : Nat) : List Char :=
  List.replicate (3 - (natDigits n).length) '0' ++ natDigits n

/-- The numeric value of a digit character. -/
def digitVal (c : Char) : Nat := c.toNat - 48

/-- The value of a decimal digit string (used to invert `natDigits`/`pad3`). -/
def digitsVal (l : List Char) : Nat := l.foldl (fun a c => 10 * a + digitVal c) 0

/-- Python `int(s)` for a decimal string: strip whitespace, parse an optional
sign followed by a non-empty run of digits; `none` embeds the `ValueError`. -/
def digitsToNat (l : List Char) : Option Nat :=
  if l ≠ [] ∧ l.all Char.isDigit then some (digitsVal l) else none

/-- Python `int(s)` (see `digitsToNat`). -/
def pyInt (l : List Char) : Option Int :=
  match stripChars l with
  | '+' :: rest => (digitsToNat rest).map Int.ofNat
  | '-' :: rest => (digitsToNat rest).map (fun n => -(n : Int))
  | rest => (digitsToNat rest).map Int.ofNat

/-- One step of a stable insertion sort by vote count descending: insert `a`
before the first element whose count is at most `a`'s.  Python's
`sorted(pairs, key=lambda x: x[1], reverse=True)` is the stable sort
descending by the second component; a stable insertion sort with this
placement rule computes the same list. -/
def ordInsertDesc (a : List Char × Nat) :
    List (List Char × Nat) → List (List Char × Nat)
  | [] => [a]
  | b :: l => if b.2 ≤ a.2 then a :: b :: l else b :: ordInsertDesc a l

/-- Stable sort of `(item_id, vote_count)` pairs by count descending,
embedding Python `sorted(..., key=lambda x: x[1], reverse=True)`. -/
def sortVotesDesc : List (List Char × Nat) → List (List Char × Nat)
  | [] => []
  | a :: l => ordInsertDesc a (sortVotesDesc l)

/-- Python `set.add`: a no-op when the element is present. -/
def setAddUser (s : List Int) (u : Int) : List Int :=
  if u ∈ s then s else s ++ [u]

/-- Python `set.discard`: remove the element if present. -/
def setDiscard (s : List Int) (u : Int) : List Int :=
  s.filter (fun x => x != u)

/-- The voter-set dictionaries of a session:
`dict[str, set[int]]` as an insertion-ordered association list. -/
abbrev VoteDict := List (List Char × List Int)

/-- Value of a key in a `VoteDict` (first entry with that key;
a Python dict has at most one). -/
def dictGet (d : VoteDict) (k : List Char) : Option (List Int) :=
  match d with
  | [] => none
  | (k2, v) :: rest => if k2 = k then some v else dictGet rest k

/-- `models.UserSession.add_*_vote` on the raw dictionary: create the entry if
absent (a new dict key is appended at the end), then add the voter. -/
def dictAddVote (d : VoteDict) (k : List Char) (u : Int) : VoteDict :=
  match d with
  | [] => [(k, [u])]
  | (k2, v) :: rest =>
    if k2 = k then (k2, setAddUser v u) :: rest
    else (k2, v) :: dictAddVote rest k u

/-- `models.UserSession.remove_*_vote` on the raw dictionary: discard the
voter and delete the entry if its set became empty. -/
def dictRemoveVote (d : VoteDict) (k : List Char) (u : Int) : VoteDict :=
  match d with
  | [] => []
  | (k2, v) :: rest =>
    if k2 = k then
      let v2 := setDiscard v u
      if v2 = [] then rest else (k2, v2) :: rest
    else (k2, v) :: dictRemoveVote rest k u

/-- `models.UserSession.has_*_vote` on the raw dictionary. -/
def dictHasVote (d : VoteDict) (k : List Char) (u : Int) : Bool :=
  match dictGet d k with
  | none => false
  | some v => u ∈ v

/-- `models.UserSession.get_*_vote_count` on the raw dictionary:
`len(d.get(k, set()))`. -/
def dictVoteCount (d : VoteDict) (k : List Char) : Nat :=
  ((dictGet d k).getD []).length

/-- `models.BotState`. -/
inductive BotState where
  | IDLE
  | SELECTING_ACTIVITIES
  | SELECTING_FOOD
  | SELECTING_DAYS
  | WAITING_FOR_HOTEL
  | CONFIRMING_HOTEL
  | GENERATING
  | REVIEWING_ITINERARY
deriving DecidableEq, Repr

/-- `models.HotelInfo`. -/
structure HotelInfo where
  raw_input : List Char
  name : List Char
  area : List Char
  confidence : List Char
deriving DecidableEq, Repr

/-- `models.Activity` (an activity or eatery candidate). -/
structure Activity where
  id : List Char
  name : List Char
  location : List Char
  date_time : List Char
  description : List Char
  url : List Char
  activity_type : List Char
  cuisine : List Char := []
deriving DecidableEq, Repr

/-- `models.UserSession`. -/
structure UserSession where
  chat_id : Int
  state : BotState := BotState.IDLE
  activities : List Activity := []
  eateries : List Activity := []
  selected_activities : VoteDict := []
  selected_eateries : VoteDict := []
  hotel : Option HotelInfo := none
  num_days : Int := 0
  start_date : List Char := []
  end_date : List Char := []
  current_itinerary : List Char := []
  created_at : List Char := []
  updated_at : List Char := []
deriving DecidableEq, Repr

namespace UserSession

/-- `models.UserSession.add_activity_vote`. -/
def add_activity_vote (s : UserSession) (item_id : List Char) (user_id : Int) :
    UserSession :=
  { s with selected_activities := dictAddVote s.selected_activities item_id user_id }

/-- `models.UserSession.remove_activity_vote`. -/
def remove_activity_vote (s : UserSession) (item_id : List Char) (user_id : Int) :
    UserSession :=
  { s with selected_activities := dictRemoveVote s.selected_activities item_id user_id }

/-- `models.UserSession.has_activity_vote`. -/
def has_activity_vote (s : UserSession) (item_id : List Char) (user_id : Int) : Bool :=
  dictHasVote s.selected_activities item_id user_id

/-- `models.UserSession.get_activity_vote_count`. -/
def get_activity_vote_count (s : UserSession) (item_id : List Char) : Nat :=
  dictVoteCount s.selected_activities item_id

/-- `models.UserSession.add_eatery_vote`. -/
def add_eatery_vote (s : UserSession) (item_id : List Char) (user_id : Int) :
    UserSession :=
  { s with selected_eateries := dictAddVote s.selected_eateries item_id user_id }

/-- `models.UserSession.remove_eatery_vote`. -/
def remove_eatery_vote (s : UserSession) (item_id : List Char) (user_id : Int) :
    UserSession :=
  { s with selected_eateries := dictRemoveVote s.selected_eateries item_id user_id }

/-- `models.UserSession.has_eatery_vote`. -/
def has_eatery_vote (s : UserSession) (item_id : List Char) (user_id : Int) : Bool :=
  dictHasVote s.selected_eateries item_id user_id

/-- `models.UserSession.get_eatery_vote_count`. -/
def get_eatery_vote_count (s : UserSession) (item_id : List Char) : Nat :=
  dictVoteCount s.selected_eateries item_id

/-- `models.UserSession.get_selected_activity_ids`. -/
def get_selected_activity_ids (s : UserSession) : List (List Char) :=
  s.selected_activities.map (fun e => e.1)

/-- `models.UserSession.get_selected_eatery_ids`. -/
def get_selected_eatery_ids (s : UserSession) : List (List Char) :=
  s.selected_eateries.map (fun e => e.1)

/-- `models.UserSession.get_activities_by_votes`: the `(item_id, len(voters))`
pairs of the vote dictionary, stably sorted by count descending. -/
def get_activities_by_votes (s : UserSession) : List (List Char × Nat) :=
  sortVotesDesc (s.selected_activities.map (fun e => (e.1, e.2.length)))

/-- `models.UserSession.get_eateries_by_votes`. -/
def get_eateries_by_votes (s : UserSession) : List (List Char × Nat) :=
  sortVotesDesc (s.selected_eateries.map (fun e => (e.1, e.2.length)))

/-- `models.UserSession.get_total_activity_votes` (`len(selected_activities)`). -/
def get_total_activity_votes (s : UserSession) : Nat :=
  s.selected_activities.length

/-- `models.UserSession.get_total_eatery_votes`. -/
def get_total_eatery_votes (s : UserSession) : Nat :=
  s.selected_eateries.length

end UserSession

/-- `config.DEFAULT_SELECTION_COUNT`. -/
def DEFAULT_SELECTION_COUNT : Nat := 3

/-- `config.START_DATE`. -/
def START_DATE : List Char := "17 December 2025".toList

/-- `config.END_DATE`. -/
def END_DATE : List Char := "20 December 2025".toList

/-- `config.CHUNK_LEN`. -/
def CHUNK_LEN : Nat := 3500

/-- The kind string `"activity"` used by `services.py` and `bot.py`. -/
def kindActivity : List Char := "activity".toList

/-- The kind string `"food"` used by `services.py` and `bot.py`. -/
def kindFood : List Char := "food".toList

/-- `services.apply_default_selections`: if any vote exists for the kind,
return `(0, [])` and leave the session alone; otherwise cast a vote from
`system_user_id` for the first `min(DEFAULT_SELECTION_COUNT, len(items))`
candidates in presentation order and return their count and names.  The
Python function mutates the session in place; the embedding returns the
updated session alongside the `(count, names)` result. -/
def apply_default_selections (session : UserSession) (selection_type : List Char)
    (system_user_id : Int := 0) : UserSession × Nat × List (List Char) :=
  let items := if selection_type = kindActivity then session.activities
               else session.eateries
  let selected := if selection_type = kindActivity then session.selected_activities
                  else session.selected_eateries
  if selected ≠ [] then (session, 0, [])
  else
    let count := min DEFAULT_SELECTION_COUNT items.length
    let chosen := items.take count
    let session2 := chosen.foldl
      (fun acc it =>
        if selection_type = kindActivity then acc.add_activity_vote it.id system_user_id
        else acc.add_eatery_vote it.id system_user_id)
      session
    (session2, count, chosen.map (fun it => it.name))

/-- The value of key `k` in Python's `{item.id: item for item in items}`:
the last item whose id is `k` (a later duplicate id overwrites an earlier). -/
def lookupItemLast (items : List Activity) (k : List Char) : Option Activity :=
  items.reverse.find? (fun it => it.id == k)

/-- `services.get_prioritized_selections`: map the ranked `(id, count)` pairs
back to `Activity` records via `{item.id: item}`, skipping ids that are not in
the candidate list. -/
def get_prioritized_selections (session : UserSession) (selection_type : List Char) :
    List Activity :=
  let votes_by_id := if selection_type = kindActivity then session.get_activities_by_votes
                     else session.get_eateries_by_votes
  let items := if selection_type = kindActivity then session.activities
               else session.eateries
  votes_by_id.foldl
    (fun acc p =>
      match lookupItemLast items p.1 with
      | some it => acc ++ [it]
      | none => acc)
    []

/-- Shared parsing loop of `services._parse_activities_with_llm` and
`services._parse_food_with_llm`: enumerate the lines of the generator output
starting at 1, strip each line, skip it when it is empty or has no pipe,
keep it as a candidate (built by `mk` from the zero-padded line index and the
pipe-separated fields) when it has at least 5 fields, and stop as soon as
`maxRec` candidates have been collected (the break runs after the append, so
with `maxRec = 0` one candidate is still kept). -/
def parseLinesGo (maxRec : Nat) (mk : List Char → List (List Char) → Activity) :
    List (List Char) → Nat → List Activity → List Activity
  | [], _, acc => acc
  | line :: rest, idx, acc =>
    let l := stripChars line
    if l = [] ∨ ¬ '|' ∈ l then parseLinesGo maxRec mk rest (idx + 1) acc
    else
      let parts := splitOnChar '|' l
      if 5 ≤ parts.length then
        let acc2 := acc ++ [mk (pad3 idx) parts]
        if maxRec ≤ acc2.length then acc2
        else parseLinesGo maxRec mk rest (idx + 1) acc2
      else parseLinesGo maxRec mk rest (idx + 1) acc

/-- The `Activity` built for one parsed line of the activities round. -/
def mkParsedActivity (idStr : List Char) (parts : List (List Char)) : Activity :=
  { id := idStr
    name := stripChars (parts.getD 0 [])
    location := stripChars (parts.getD 1 [])
    date_time := stripChars (parts.getD 2 [])
    description := stripChars (parts.getD 3 [])
    url := stripChars (parts.getD 4 [])
    activity_type := kindActivity }

/-- The `Activity` built for one parsed line of the food round
(`date_time` empty, third field is the cuisine). -/
def mkParsedFood (idStr : List Char) (parts : List (List Char)) : Activity :=
  { id := idStr
    name := stripChars (parts.getD 0 [])
    location := stripChars (parts.getD 1 [])
    date_time := []
    cuisine := stripChars (parts.getD 2 [])
    description := stripChars (parts.getD 3 [])
    url := stripChars (parts.getD 4 [])
    activity_type := kindFood }

/-- `services._parse_activities_with_llm`, taken after the LLM call and the
`<think>` stripping: the pure extraction of candidates from the generator
output `content`.  `maxRec` stands for `config.MAX_RECOMMENDATIONS`, which
`services.py` imports but `config.py` does not define, so it is a parameter. -/
def parse_activities_with_llm (maxRec : Nat) (content : List Char) : List Activity :=
  parseLinesGo maxRec mkParsedActivity (splitOnChar '\n' content) 1 []

/-- `services._parse_food_with_llm`, taken after the LLM call (see
`parse_activities_with_llm`). -/
def parse_food_with_llm (maxRec : Nat) (content : List Char) : List Activity :=
  parseLinesGo maxRec mkParsedFood (splitOnChar '\n' content) 1 []

/-- Outcome of the fallible part of `services.parse_hotel`: the LLM call can
raise (any exception), `json.loads` can raise `JSONDecodeError`, or the JSON
parses and provides each of the three keys optionally. -/
inductive HotelParseOutcome where
  | llmFailure
  | jsonFailure
  | parsed (name area confidence : Option (List Char))
deriving DecidableEq, Repr

/-- `services.parse_hotel`: build a `HotelInfo` from the user's raw input and
the structured-parsing outcome.  Both failure branches fall back to a
low-confidence literal echo (`user_input.title()`, `"Unknown"`, `"low"`);
a successful parse fills missing keys with the same fallbacks. -/
def parse_hotel (user_input : List Char) (outcome : HotelParseOutcome) : HotelInfo :=
  match outcome with
  | HotelParseOutcome.llmFailure =>
    { raw_input := user_input, name := pyTitle user_input,
      area := "Unknown".toList, confidence := "low".toList }
  | HotelParseOutcome.jsonFailure =>
    { raw_input := user_input, name := pyTitle user_input,
      area := "Unknown".toList, confidence := "low".toList }
  | HotelParseOutcome.parsed n a c =>
    { raw_input := user_input, name := n.getD (pyTitle user_input),
      area := a.getD ("Unknown".toList), confidence := c.getD ("low".toList) }

/-- Maximal runs of whitespace / non-whitespace characters, in order
(the chunking pass of the Python `textwrap` module when
`replace_whitespace=False`). -/
def splitRuns : List Char → List (List Char)
  | [] => []
  | c :: t =>
    match splitRuns t with
    | [] => [[c]]
    | [] :: rs => [c] :: [] :: rs
    | (d :: r) :: rs =>
      if pyIsSpace c = pyIsSpace d then (c :: d :: r) :: rs
      else [c] :: (d :: r) :: rs

/-- Break one run into pieces of length at most `w`. -/
def chopRun (w : Nat) (r : List Char) : List (List Char) :=
  if w = 0 then [r]
  else if r.length ≤ w then [r]
  else r.take w :: chopRun w (r.drop w)
termination_by r.length
decreasing_by simp; omega

/-- Greedy packing of pieces (each of length at most `w`) into lines of
length at most `w`. -/
def packRuns (w : Nat) : List (List Char) → List Char → List (List Char)
  | [], cur => if cur = [] then [] else [cur]
  | r :: rs, cur =>
    if cur.length + r.length ≤ w then packRuns w rs (cur ++ r)
    else if cur = [] then r :: packRuns w rs []
    else cur :: packRuns w (r :: rs) []
termination_by rs cur => (rs.length, cur.length)
decreasing_by
  · apply Prod.Lex.left; simp
  · apply Prod.Lex.left; simp
  · apply Prod.Lex.right
    rename_i hne
    exact List.length_pos.mpr hne

/-- Modelled from the Python standard library:  `textwrap.wrap(p, width=w,
replace_whitespace=False, drop_whitespace=False)`.  The model splits the text
into maximal whitespace/non-whitespace runs, breaks runs longer than the
width, and packs the pieces greedily into lines of at most `w` characters; it
simplifies CPython's mid-line break position for over-long runs (the
repository's chunker only relies on the pieces, and no theorem in this file
depends on this function's output). -/
def pyTextwrapWrap (w : Nat) (p : List Char) : List (List Char) :=
  packRuns w ((splitRuns p).flatMap (chopRun w)) []

/-- The paragraph loop of `bot._split_into_chunks`. -/
def chunksLoop (w : Nat) : List (List Char) → List Char → List (List Char) →
    List (List Char)
  | [], current, chunks => if current = [] then chunks else chunks ++ [current]
  | p :: ps, current, chunks =>
    let candidate := if current = [] then p
                     else stripChars (current ++ '\n' :: '\n' :: p)
    if candidate.length ≤ w then chunksLoop w ps candidate chunks
    else
      let chunks2 := if current = [] then chunks else chunks ++ [current]
      if w < p.length then
        let wrapped := pyTextwrapWrap w p
        chunksLoop w ps ((wrapped.getLast?).getD []) (chunks2 ++ wrapped.dropLast)
      else chunksLoop w ps p chunks2

/-- `bot._split_into_chunks`: return the whole text when it fits, otherwise
split on paragraph boundaries and accumulate greedily (hard-wrapping a
paragraph that alone exceeds the limit). -/
def split_into_chunks (text : List Char) (max_len : Nat := CHUNK_LEN) :
    List (List Char) :=
  if text.length ≤ max_len then [text]
  else chunksLoop max_len (splitNN text) [] []

/-- Outcomes of the external calls a callback handler can make: the two
Tavily+LLM searches (`none` embeds a raised `TavilySearchError`/`LLMError`/
other exception, `some l` a successful parse — possibly empty) and the
itinerary generation (`none` embeds a raised `LLMError`/other exception). -/
structure Externals where
  searchActivitiesRes : Option (List Activity)
  searchFoodRes : Option (List Activity)
  generateRes : Option (List Char)
deriving Repr

/-- `bot._start_days_selection` (session effect). -/
def start_days_selection (s : UserSession) : UserSession :=
  { s with state := BotState.SELECTING_DAYS }

/-- `bot._start_activity_selection` (session effect): on a search failure or
an empty result the handler reports and returns, leaving the session as it
was; on success it stores the candidates and moves to
`SELECTING_ACTIVITIES`. -/
def start_activity_selection (s : UserSession) (ext : Externals) : UserSession :=
  match ext.searchActivitiesRes with
  | none => s
  | some [] => s
  | some acts => { s with activities := acts, state := BotState.SELECTING_ACTIVITIES }

/-- `bot._start_food_selection` (session effect). -/
def start_food_selection (s : UserSession) (ext : Externals) : UserSession :=
  match ext.searchFoodRes with
  | none => s
  | some [] => s
  | some eats => { s with eateries := eats, state := BotState.SELECTING_FOOD }

/-- `bot._start_itinerary_generation` (session effect): enter `GENERATING`;
on success store the itinerary and move to `REVIEWING_ITINERARY`, on failure
roll back to `SELECTING_FOOD`. -/
def start_itinerary_generation (s : UserSession) (ext : Externals) : UserSession :=
  let s1 := { s with state := BotState.GENERATING }
  match ext.generateRes with
  | none => { s1 with state := BotState.SELECTING_FOOD }
  | some itin =>
    { s1 with current_itinerary := itin, state := BotState.REVIEWING_ITINERARY }

/-- `bot._handle_hotel_confirmation` (session effect). -/
def handle_hotel_confirmation (s : UserSession) (data : List Char) : UserSession :=
  if s.state ≠ BotState.CONFIRMING_HOTEL then s
  else if data = "htl_yes".toList then start_days_selection s
  else { s with hotel := none, state := BotState.WAITING_FOR_HOTEL }

/-- `bot._handle_days_selection` (session effect): `int(data.split("_")[1])`
with no range check; a `ValueError` propagates to `handle_callback`'s generic
handler before any mutation, which the `none` branch embeds. -/
def handle_days_selection (s : UserSession) (data : List Char) (ext : Externals) :
    UserSession :=
  if s.state ≠ BotState.SELECTING_DAYS then s
  else
    match pyInt ((splitOnChar '_' data).getD 1 []) with
    | none => s
    | some n => start_activity_selection { s with num_days := n } ext

/-- `bot._handle_selection` (session effect): parse
`<action>_<kind>_<id>` as `data.split("_")` and toggle the vote; the item id
taken is `parts[2]`, with no validation against the candidate list. -/
def handle_selection (s : UserSession) (data : List Char) (selection_type : List Char)
    (user_id : Int) : UserSession :=
  let expected := if selection_type = kindActivity then BotState.SELECTING_ACTIVITIES
                  else BotState.SELECTING_FOOD
  if s.state ≠ expected then s
  else
    let parts := splitOnChar '_' data
    let action := parts.getD 0 []
    let item_id := parts.getD 2 []
    if action = "sel".toList then
      if selection_type = kindActivity then s.add_activity_vote item_id user_id
      else s.add_eatery_vote item_id user_id
    else
      if selection_type = kindActivity then s.remove_activity_vote item_id user_id
      else s.remove_eatery_vote item_id user_id

/-- `bot._handle_done_activities` (session effect). -/
def handle_done_activities (s : UserSession) (ext : Externals) : UserSession :=
  if s.state ≠ BotState.SELECTING_ACTIVITIES then s
  else
    let s1 := if s.selected_activities = []
              then (apply_default_selections s kindActivity 0).1 else s
    start_food_selection s1 ext

/-- `bot._handle_done_food` (session effect). -/
def handle_done_food (s : UserSession) (ext : Externals) : UserSession :=
  if s.state ≠ BotState.SELECTING_FOOD then s
  else
    let s1 := if s.selected_eateries = []
              then (apply_default_selections s kindFood 0).1 else s
    start_itinerary_generation s1 ext

/-- `bot._handle_itinerary_action` (session effect). -/
def handle_itinerary_action (s : UserSession) (data : List Char) (ext : Externals) :
    UserSession :=
  if s.state ≠ BotState.REVIEWING_ITINERARY then s
  else if data = "itin_regen".toList then start_itinerary_generation s ext
  else { s with state := BotState.IDLE }

/-- `bot.handle_callback` (session effect): route the payload exactly as the
Python dispatch does — `htl_*`, the `days_` prefix, the `sel_act_`/`des_act_`
and `sel_fod_`/`des_fod_` prefixes, `done_act`, `done_fod`, `itin_*`, and an
answer-only fallback for anything else. -/
def handleCallback (s : UserSession) (data : List Char) (user_id : Int)
    (ext : Externals) : UserSession :=
  if data = "htl_yes".toList ∨ data = "htl_no".toList then
    handle_hotel_confirmation s data
  else if ("days_".toList).isPrefixOf data then
    handle_days_selection s data ext
  else if ("sel_act_".toList).isPrefixOf data ∨ ("des_act_".toList).isPrefixOf data then
    handle_selection s data kindActivity user_id
  else if ("sel_fod_".toList).isPrefixOf data ∨ ("des_fod_".toList).isPrefixOf data then
    handle_selection s data kindFood user_id
  else if data = "done_act".toList then handle_done_activities s ext
  else if data = "done_fod".toList then handle_done_food s ext
  else if data = "itin_regen".toList ∨ data = "itin_ok".toList then
    handle_itinerary_action s data ext
  else s

/-- The state each callback family requires, read off the guard at the top of
its handler; `none` for unroutable payloads. -/
def callbackRequiredState (data : List Char) : Option BotState :=
  if data = "htl_yes".toList ∨ data = "htl_no".toList then
    some BotState.CONFIRMING_HOTEL
  else if ("days_".toList).isPrefixOf data then
    some BotState.SELECTING_DAYS
  else if ("sel_act_".toList).isPrefixOf data ∨ ("des_act_".toList).isPrefixOf data then
    some BotState.SELECTING_ACTIVITIES
  else if ("sel_fod_".toList).isPrefixOf data ∨ ("des_fod_".toList).isPrefixOf data then
    some BotState.SELECTING_FOOD
  else if data = "done_act".toList then some BotState.SELECTING_ACTIVITIES
  else if data = "done_fod".toList then some BotState.SELECTING_FOOD
  else if data = "itin_regen".toList ∨ data = "itin_ok".toList then
    some BotState.REVIEWING_ITINERARY
  else none

/-- `bot.handle_text` (session effect): in `WAITING_FOR_HOTEL` the text is
handed to `bot._handle_hotel_input`, whose `parse_hotel` call is embedded by
its outcome (`none` for a raised `LLMError`/exception — the handler then only
reports and leaves the session alone; `some h` for a parsed hotel — the
handler stores it and moves to `CONFIRMING_HOTEL`).  Every other state only
gets a guidance reply. -/
def handle_text (s : UserSession) (hotelRes : Option HotelInfo) : UserSession :=
  if s.state = BotState.WAITING_FOR_HOTEL then
    match hotelRes with
    | none => s
    | some h => { s with hotel := some h, state := BotState.CONFIRMING_HOTEL }
  else s

/-- A fresh `storage.get_session` result for a chat. -/
def freshSession (cid : Int) : UserSession := { chat_id := cid }

/-- `bot.plan` (session effect): clear the session, create a fresh one with
the trip dates, and enter hotel input (`bot._start_hotel_input`). -/
def planCommand (cid : Int) : UserSession :=
  { freshSession cid with start_date := START_DATE, end_date := END_DATE,
                          state := BotState.WAITING_FOR_HOTEL }

/-- One inbound event of the wizard, tagged with the outcomes of any external
calls its handling performs. -/
inductive BotEvent where
  | plan
  | text (hotelRes : Option HotelInfo)
  | callback (data : List Char) (user_id : Int) (ext : Externals)

/-- The session transition for one inbound event. -/
def stepEvent (s : UserSession) : BotEvent → UserSession
  | BotEvent.plan => planCommand s.chat_id
  | BotEvent.text hres => handle_text s hres
  | BotEvent.callback data user ext => handleCallback s data user ext

/-- The callback payloads of `keyboards.build_days_keyboard`:
`days_1` … `days_5`. -/
def daysKeyboardPayloads : List (List Char) :=
  (List.range 5).map (fun i => "days_".toList ++ natDigits (i + 1))

/-! ### Lemmas about the voter-set and dictionary operations -/

theorem mem_setAddUser_self (s : List Int) (u : Int) : u ∈ setAddUser s u := by
  unfold setAddUser
  split
  · assumption
  · simp

theorem setAddUser_ne_nil (s : List Int) (u : Int) : setAddUser s u ≠ [] := by
  unfold setAddUser
  split
  · rename_i h
    intro hnil
    rw [hnil] at h
    simp at h
  · simp

theorem setAddUser_of_mem {s : List Int} {u : Int} (h : u ∈ s) :
    setAddUser s u = s := by
  unfold setAddUser
  exact if_pos h

theorem not_mem_setDiscard (s : List Int) (u : Int) : u ∉ setDiscard s u := by
  unfold setDiscard
  intro h
  have := List.of_mem_filter h
  simp at this

theorem setDiscard_of_not_mem {s : List Int} {u : Int} (h : u ∉ s) :
    setDiscard s u = s := by
  unfold setDiscard
  apply List.filter_eq_self.mpr
  intro a ha
  simp
  intro hau
  exact absurd (hau ▸ ha) h

theorem dictGet_addVote_self (d : VoteDict) (k : List Char) (u : Int) :
    ∃ v, dictGet (dictAddVote d k u) k = some v ∧ u ∈ v := by
  induction d with
  | nil => exact ⟨[u], by simp [dictAddVote, dictGet], by simp⟩
  | cons e rest ih =>
    obtain ⟨k2, v⟩ := e
    by_cases h : k2 = k
    · exact ⟨setAddUser v u, by simp [dictAddVote, dictGet, h],
        mem_setAddUser_self v u⟩
    · obtain ⟨v2, hv2, hu⟩ := ih
      exact ⟨v2, by simp [dictAddVote, dictGet, h, hv2], hu⟩

theorem dictHasVote_addVote_self (d : VoteDict) (k : List Char) (u : Int) :
    dictHasVote (dictAddVote d k u) k u = true := by
  obtain ⟨v, hv, hu⟩ := dictGet_addVote_self d k u
  simp [dictHasVote, hv, hu]

theorem dictGet_addVote_ne (d : VoteDict) {k k2 : List Char} (u : Int)
    (h : k ≠ k2) : dictGet (dictAddVote d k u) k2 = dictGet d k2 := by
  induction d with
  | nil => simp [dictAddVote, dictGet, h]
  | cons e rest ih =>
    obtain ⟨k3, v⟩ := e
    by_cases h3 : k3 = k
    · subst h3
      simp [dictAddVote, dictGet, h]
    · simp only [dictAddVote, if_neg h3]
      by_cases h32 : k3 = k2 <;> simp [dictGet, h32, ih]

theorem dictHasVote_addVote (d : VoteDict) (k k2 : List Char) (u : Int) :
    dictHasVote (dictAddVote d k u) k2 u =
      (decide (k = k2) || dictHasVote d k2 u) := by
  by_cases h : k = k2
  · subst h
    simp [dictHasVote_addVote_self]
  · simp [h, dictHasVote, dictGet_addVote_ne d u h]

theorem dictGet_eq_none_of_not_mem {d : VoteDict} {k : List Char}
    (h : k ∉ d.map (fun e => e.1)) : dictGet d k = none := by
  induction d with
  | nil => rfl
  | cons e rest ih =>
    obtain ⟨k2, v⟩ := e
    by_cases hk : k2 = k
    · exact absurd (by simp [hk]) h
    · have h2 : k ∉ rest.map (fun e => e.1) := by
        intro hm
        exact h (by simp [hm])
      simp [dictGet, hk, ih h2]

theorem dictHasVote_removeVote_self (d : VoteDict) (k : List Char) (u : Int)
    (hnd : (d.map (fun e => e.1)).Nodup) :
    dictHasVote (dictRemoveVote d k u) k u = false := by
  induction d with
  | nil => rfl
  | cons e rest ih =>
    obtain ⟨k2, v⟩ := e
    rw [List.map_cons, List.nodup_cons] at hnd
    by_cases h : k2 = k
    · subst h
      by_cases hv2 : setDiscard v u = []
      · have : dictGet rest k2 = none := dictGet_eq_none_of_not_mem hnd.1
        simp [dictRemoveVote, hv2, dictHasVote, this]
      · simp [dictRemoveVote, hv2, dictHasVote, dictGet]
        intro hmem
        exact absurd hmem (not_mem_setDiscard v u)
    · have := ih hnd.2
      simp only [dictHasVote] at this ⊢
      simp [dictRemoveVote, h, dictGet, this]

theorem dictAddVote_of_hasVote {d : VoteDict} {k : List Char} {u : Int}
    (h : dictHasVote d k u = true) : dictAddVote d k u = d := by
  induction d with
  | nil => simp [dictHasVote, dictGet] at h
  | cons e rest ih =>
    obtain ⟨k2, v⟩ := e
    by_cases hk : k2 = k
    · subst hk
      simp only [dictHasVote, dictGet, if_pos rfl] at h
      simp at h
      simp [dictAddVote, setAddUser_of_mem h]
    · simp only [dictHasVote, dictGet, if_neg hk] at h
      have := ih (by simpa [dictHasVote] using h)
      simp [dictAddVote, hk, this]

theorem dictRemoveVote_of_not_hasVote {d : VoteDict} {k : List Char} {u : Int}
    (hne : ∀ e ∈ d, e.2 ≠ []) (h : dictHasVote d k u = false) :
    dictRemoveVote d k u = d := by
  induction d with
  | nil => rfl
  | cons e rest ih =>
    obtain ⟨k2, v⟩ := e
    by_cases hk : k2 = k
    · subst hk
      simp only [dictHasVote, dictGet, if_pos rfl] at h
      simp at h
      have hv : v ≠ [] := hne (k2, v) (by simp)
      simp [dictRemoveVote, setDiscard_of_not_mem h, hv]
    · simp only [dictHasVote, dictGet, if_neg hk] at h
      have := ih (fun e he => hne e (by simp [he])) (by simpa [dictHasVote] using h)
      simp [dictRemoveVote, hk, this]

theorem mem_keys_dictAddVote (d : VoteDict) (k k2 : List Char) (u : Int) :
    k2 ∈ (dictAddVote d k u).map (fun e => e.1) ↔
      k2 ∈ d.map (fun e => e.1) ∨ k2 = k := by
  induction d with
  | nil => simp [dictAddVote]
  | cons e rest ih =>
    obtain ⟨k3, v⟩ := e
    by_cases hk : k3 = k
    · subst hk
      simp [dictAddVote]
      tauto
    · simp [dictAddVote, hk, ih]
      tauto

theorem nodup_keys_dictAddVote {d : VoteDict} (k : List Char) (u : Int)
    (hnd : (d.map (fun e => e.1)).Nodup) :
    ((dictAddVote d k u).map (fun e => e.1)).Nodup := by
  induction d with
  | nil => simp [dictAddVote]
  | cons e rest ih =>
    obtain ⟨k2, v⟩ := e
    rw [List.map_cons, List.nodup_cons] at hnd
    by_cases hk : k2 = k
    · subst hk
      simpa [dictAddVote] using hnd
    · simp only [dictAddVote, if_neg hk, List.map_cons, List.nodup_cons]
      refine ⟨?_, ih hnd.2⟩
      intro hmem
      rcases (mem_keys_dictAddVote rest k k2 u).mp hmem with h | h
      · exact hnd.1 h
      · subst h
        exact hk rfl

theorem keys_dictRemoveVote_sublist (d : VoteDict) (k : List Char) (u : Int) :
    ((dictRemoveVote d k u).map (fun e => e.1)).Sublist
      (d.map (fun e => e.1)) := by
  induction d with
  | nil => simp [dictRemoveVote]
  | cons e rest ih =>
    obtain ⟨k2, v⟩ := e
    by_cases hk : k2 = k
    · subst hk
      by_cases hv2 : setDiscard v u = []
      · simp [dictRemoveVote, hv2]
      · simp [dictRemoveVote, hv2]
    · simp only [dictRemoveVote, if_neg hk, List.map_cons]
      exact ih.cons₂ k2

theorem nodup_keys_dictRemoveVote {d : VoteDict} (k : List Char) (u : Int)
    (hnd : (d.map (fun e => e.1)).Nodup) :
    ((dictRemoveVote d k u).map (fun e => e.1)).Nodup :=
  (keys_dictRemoveVote_sublist d k u).nodup hnd

theorem dictAddVote_entries_ne_nil {d : VoteDict} (k : List Char) (u : Int)
    (h : ∀ e ∈ d, e.2 ≠ []) : ∀ e ∈ dictAddVote d k u, e.2 ≠ [] := by
  induction d with
  | nil =>
    intro e he
    simp [dictAddVote] at he
    simp [he]
  | cons e2 rest ih =>
    obtain ⟨k2, v⟩ := e2
    intro e he
    by_cases hk : k2 = k
    · subst hk
      simp only [dictAddVote, if_pos rfl] at he
      rcases List.mem_cons.mp he with h1 | h1
      · rw [h1]
        exact setAddUser_ne_nil v u
      · exact h e (by simp [h1])
    · simp only [dictAddVote, if_neg hk] at he
      rcases List.mem_cons.mp he with h1 | h1
      · rw [h1]
        exact h (k2, v) (by simp)
      · exact ih (fun e3 he3 => h e3 (by simp [he3])) e h1

theorem dictRemoveVote_entries_ne_nil {d : VoteDict} (k : List Char) (u : Int)
    (h : ∀ e ∈ d, e.2 ≠ []) : ∀ e ∈ dictRemoveVote d k u, e.2 ≠ [] := by
  induction d with
  | nil => intro e he; simp [dictRemoveVote] at he
  | cons e2 rest ih =>
    obtain ⟨k2, v⟩ := e2
    intro e he
    by_cases hk : k2 = k
    · subst hk
      by_cases hv2 : setDiscard v u = []
      · simp [dictRemoveVote, hv2] at he
        exact h e (by simp [he])
      · simp [dictRemoveVote, hv2] at he
        rcases he with h1 | h1
        · rw [h1]
          exact hv2
        · exact h e (by simp [h1])
    · simp only [dictRemoveVote, if_neg hk] at he
      rcases List.mem_cons.mp he with h1 | h1
      · rw [h1]
        exact h (k2, v) (by simp)
      · exact ih (fun e3 he3 => h e3 (by simp [he3])) e h1

/-! ### The vote-ledger operations and their invariant -/

/-- The vote-ledger invariant of the spec: every id present in a vote
mapping has a non-empty voter set. -/
def ledgerInv (s : UserSession) : Prop :=
  (∀ e ∈ s.selected_activities, e.2 ≠ []) ∧ (∀ e ∈ s.selected_eateries, e.2 ≠ [])

/-- One vote-ledger operation: add or remove a vote of either kind, or apply
the default-selection policy for a kind. -/
inductive LedgerOp where
  | addAct (item : List Char) (user : Int)
  | removeAct (item : List Char) (user : Int)
  | addEat (item : List Char) (user : Int)
  | removeEat (item : List Char) (user : Int)
  | defaults (selection_type : List Char)

/-- Apply one vote-ledger operation to a session. -/
def applyLedgerOp (s : UserSession) : LedgerOp → UserSession
  | LedgerOp.addAct i u => s.add_activity_vote i u
  | LedgerOp.removeAct i u => s.remove_activity_vote i u
  | LedgerOp.addEat i u => s.add_eatery_vote i u
  | LedgerOp.removeEat i u => s.remove_eatery_vote i u
  | LedgerOp.defaults t => (apply_default_selections s t 0).1

/-- Apply a sequence of vote-ledger operations to a session. -/
def applyLedgerOps (s : UserSession) (ops : List LedgerOp) : UserSession :=
  ops.foldl applyLedgerOp s

theorem ledgerInv_foldAddVotes (t : List Char) (u : Int) :
    ∀ (l : List Activity) (s : UserSession), ledgerInv s →
      ledgerInv (l.foldl
        (fun acc it =>
          if t = kindActivity then acc.add_activity_vote it.id u
          else acc.add_eatery_vote it.id u) s) := by
  intro l
  induction l with
  | nil => intro s hs; exact hs
  | cons it rest ih =>
    intro s hs
    rw [List.foldl_cons]
    apply ih
    by_cases ht : t = kindActivity
    · simp only [if_pos ht]
      exact ⟨dictAddVote_entries_ne_nil it.id u hs.1, hs.2⟩
    · simp only [if_neg ht]
      exact ⟨hs.1, dictAddVote_entries_ne_nil it.id u hs.2⟩

theorem ledgerInv_applyLedgerOp (s : UserSession) (op : LedgerOp)
    (hs : ledgerInv s) : ledgerInv (applyLedgerOp s op) := by
  cases op with
  | addAct i u => exact ⟨dictAddVote_entries_ne_nil i u hs.1, hs.2⟩
  | removeAct i u => exact ⟨dictRemoveVote_entries_ne_nil i u hs.1, hs.2⟩
  | addEat i u => exact ⟨hs.1, dictAddVote_entries_ne_nil i u hs.2⟩
  | removeEat i u => exact ⟨hs.1, dictRemoveVote_entries_ne_nil i u hs.2⟩
  | defaults t =>
    show ledgerInv (apply_default_selections s t 0).1
    unfold apply_default_selections
    by_cases hsel : (if t = kindActivity then s.selected_activities
        else s.selected_eateries) ≠ []
    · simpa [hsel] using hs
    · simp only [hsel, if_neg, ite_not]
      simp
      exact ledgerInv_foldAddVotes t 0 _ s hs

/-- C4.  In every session state reachable from a fresh session by any
sequence of vote-ledger operations (add vote, remove vote, apply defaults,
of either kind), every key of `selected_activities` and of
`selected_eateries` maps to a non-empty voter set. -/
theorem c4_ledger_invariant (cid : Int) (ops : List LedgerOp) :
    ledgerInv (applyLedgerOps (freshSession cid) ops) := by
  have hstep : ∀ (s : UserSession) (ops2 : List LedgerOp), ledgerInv s →
      ledgerInv (applyLedgerOps s ops2) := by
    intro s ops2
    induction ops2 generalizing s with
    | nil => intro hs; exact hs
    | cons op rest ih =>
      intro hs
      exact ih _ (ledgerInv_applyLedgerOp s op hs)
  exact hstep _ ops ⟨by simp [freshSession], by simp [freshSession]⟩

/-! ### Toggle sequences on a fixed (item, voter) pair -/

/-- One toggle operation on a fixed (kind, item, voter) triple. -/
inductive VoteToggle where
  | addVoteOp
  | removeVoteOp
deriving DecidableEq, Repr

/-- Apply a sequence of activity-vote toggles for a fixed item and voter. -/
def applyActToggles (s : UserSession) (item : List Char) (u : Int)
    (ops : List VoteToggle) : UserSession :=
  ops.foldl
    (fun acc op =>
      match op with
      | VoteToggle.addVoteOp => acc.add_activity_vote item u
      | VoteToggle.removeVoteOp => acc.remove_activity_vote item u) s

/-- Apply a sequence of eatery-vote toggles for a fixed item and voter. -/
def applyEatToggles (s : UserSession) (item : List Char) (u : Int)
    (ops : List VoteToggle) : UserSession :=
  ops.foldl
    (fun acc op =>
      match op with
      | VoteToggle.addVoteOp => acc.add_eatery_vote item u
      | VoteToggle.removeVoteOp => acc.remove_eatery_vote item u) s

theorem nodup_keys_applyActToggles (item : List Char) (u : Int) :
    ∀ (ops : List VoteToggle) (s : UserSession),
      ((s.selected_activities.map (fun e => e.1)).Nodup) →
      (((applyActToggles s item u ops).selected_activities.map
        (fun e => e.1)).Nodup) := by
  intro ops
  induction ops with
  | nil => intro s hs; exact hs
  | cons op rest ih =>
    intro s hs
    show ((applyActToggles _ item u rest).selected_activities.map _).Nodup
    apply ih
    cases op
    · exact nodup_keys_dictAddVote item u hs
    · exact nodup_keys_dictRemoveVote item u hs

theorem nodup_keys_applyEatToggles (item : List Char) (u : Int) :
    ∀ (ops : List VoteToggle) (s : UserSession),
      ((s.selected_eateries.map (fun e => e.1)).Nodup) →
      (((applyEatToggles s item u ops).selected_eateries.map
        (fun e => e.1)).Nodup) := by
  intro ops
  induction ops with
  | nil => intro s hs; exact hs
  | cons op rest ih =>
    intro s hs
    show ((applyEatToggles _ item u rest).selected_eateries.map _).Nodup
    apply ih
    cases op
    · exact nodup_keys_dictAddVote item u hs
    · exact nodup_keys_dictRemoveVote item u hs

/-- C2.  Toggle semantics of the vote ledger: over any non-empty sequence of
add/remove operations on one (item, voter) pair the final `has_*_vote` answer
is `true` exactly when the last operation was an add; adding an
already-present vote and removing an absent one leave the vote mapping (and
the whole session) unchanged.  The `Nodup` and non-empty-entry hypotheses are
the representation invariants of the embedded Python dict (a dict cannot hold
a duplicate key, and reachable ledgers hold no empty voter set). -/
theorem c2_toggle_semantics (s : UserSession) (item : List Char) (u : Int) :
    (((s.selected_activities.map (fun e => e.1)).Nodup) →
      ∀ ops : List VoteToggle, ops ≠ [] →
        ((applyActToggles s item u ops).has_activity_vote item u = true ↔
          ops.getLast? = some VoteToggle.addVoteOp)) ∧
    (s.has_activity_vote item u = true → s.add_activity_vote item u = s) ∧
    ((∀ e ∈ s.selected_activities, e.2 ≠ []) →
      s.has_activity_vote item u = false → s.remove_activity_vote item u = s) ∧
    (((s.selected_eateries.map (fun e => e.1)).Nodup) →
      ∀ ops : List VoteToggle, ops ≠ [] →
        ((applyEatToggles s item u ops).has_eatery_vote item u = true ↔
          ops.getLast? = some VoteToggle.addVoteOp)) ∧
    (s.has_eatery_vote item u = true → s.add_eatery_vote item u = s) ∧
    ((∀ e ∈ s.selected_eateries, e.2 ≠ []) →
      s.has_eatery_vote item u = false → s.remove_eatery_vote item u = s) := by
  refine ⟨?_, ?_, ?_, ?_, ?_, ?_⟩
  · intro hnd ops hne
    rcases List.eq_nil_or_concat ops with rfl | ⟨init, op, rfl⟩
    · exact absurd rfl hne
    · cases op
      · have hfold : applyActToggles s item u (init.concat VoteToggle.addVoteOp) =
            (applyActToggles s item u init).add_activity_vote item u := by
          simp [applyActToggles, List.concat_eq_append, List.foldl_append]
        rw [hfold]
        simp [UserSession.has_activity_vote, UserSession.add_activity_vote,
          dictHasVote_addVote_self, List.getLast?_concat]
      · have hnd2 : ((applyActToggles s item u init).selected_activities.map
            (fun e => e.1)).Nodup := nodup_keys_applyActToggles item u init s hnd
        have hfold : applyActToggles s item u (init.concat VoteToggle.removeVoteOp) =
            (applyActToggles s item u init).remove_activity_vote item u := by
          simp [applyActToggles, List.concat_eq_append, List.foldl_append]
        rw [hfold]
        simp [UserSession.has_activity_vote, UserSession.remove_activity_vote,
          dictHasVote_removeVote_self _ item u hnd2, List.getLast?_concat]
  · intro h
    show { s with selected_activities := dictAddVote s.selected_activities item u } = s
    rw [dictAddVote_of_hasVote h]
  · intro hne h
    show { s with selected_activities := dictRemoveVote s.selected_activities item u } = s
    rw [dictRemoveVote_of_not_hasVote hne h]
  · intro hnd ops hne
    rcases List.eq_nil_or_concat ops with rfl | ⟨init, op, rfl⟩
    · exact absurd rfl hne
    · cases op
      · have hfold : applyEatToggles s item u (init.concat VoteToggle.addVoteOp) =
            (applyEatToggles s item u init).add_eatery_vote item u := by
          simp [applyEatToggles, List.concat_eq_append, List.foldl_append]
        rw [hfold]
        simp [UserSession.has_eatery_vote, UserSession.add_eatery_vote,
          dictHasVote_addVote_self, List.getLast?_concat]
      · have hnd2 : ((applyEatToggles s item u init).selected_eateries.map
            (fun e => e.1)).Nodup := nodup_keys_applyEatToggles item u init s hnd
        have hfold : applyEatToggles s item u (init.concat VoteToggle.removeVoteOp) =
            (applyEatToggles s item u init).remove_eatery_vote item u := by
          simp [applyEatToggles, List.concat_eq_append, List.foldl_append]
        rw [hfold]
        simp [UserSession.has_eatery_vote, UserSession.remove_eatery_vote,
          dictHasVote_removeVote_self _ item u hnd2, List.getLast?_concat]
  · intro h
    show { s with selected_eateries := dictAddVote s.selected_eateries item u } = s
    rw [dictAddVote_of_hasVote h]
  · intro hne h
    show { s with selected_eateries := dictRemoveVote s.selected_eateries item u } = s
    rw [dictRemoveVote_of_not_hasVote hne h]

/-- Witness for C2 at a concrete session: one voter toggles item `001` on,
off, and on again; the final answer is yes, and the no-op branches apply. -/
theorem c2_toggle_semantics_witness :
    ((((freshSession 1).selected_activities.map (fun e => e.1)).Nodup) ∧
      ((applyActToggles (freshSession 1) ("001".toList) 7
        [VoteToggle.addVoteOp, VoteToggle.removeVoteOp,
          VoteToggle.addVoteOp]).has_activity_vote ("001".toList) 7 = true ↔
        ([VoteToggle.addVoteOp, VoteToggle.removeVoteOp,
          VoteToggle.addVoteOp].getLast? = some VoteToggle.addVoteOp))) ∧
    ((freshSession 1).has_activity_vote ("001".toList) 7 = false →
      (freshSession 1).remove_activity_vote ("001".toList) 7 = freshSession 1) := by
  refine ⟨⟨by decide, ?_⟩, ?_⟩
  · exact (c2_toggle_semantics (freshSession 1) ("001".toList) 7).1 (by decide)
      _ (by decide)
  · intro h
    exact ((c2_toggle_semantics (freshSession 1) ("001".toList) 7).2.2.1)
      (by intro e he; simp [freshSession] at he) h

/-! ### The ranked vote listing (C1) -/

theorem perm_ordInsertDesc (a : List Char × Nat) :
    ∀ l : List (List Char × Nat), (ordInsertDesc a l).Perm (a :: l) := by
  intro l
  induction l with
  | nil => exact List.Perm.refl _
  | cons b t ih =>
    by_cases hba : b.2 ≤ a.2
    · simp [ordInsertDesc, hba]
    · simp only [ordInsertDesc, if_neg hba]
      exact (ih.cons b).trans (List.Perm.swap a b t)

theorem perm_sortVotesDesc :
    ∀ l : List (List Char × Nat), (sortVotesDesc l).Perm l := by
  intro l
  induction l with
  | nil => exact List.Perm.refl _
  | cons a t ih =>
    exact (List.Perm.trans (perm_ordInsertDesc a (sortVotesDesc t))
      (ih.cons a))

theorem pairwise_ordInsertDesc (a : List Char × Nat) :
    ∀ l : List (List Char × Nat),
      l.Pairwise (fun x y => y.2 ≤ x.2) →
      (ordInsertDesc a l).Pairwise (fun x y => y.2 ≤ x.2) := by
  intro l
  induction l with
  | nil => intro _; exact List.pairwise_singleton _ a
  | cons b t ih =>
    intro h
    rw [List.pairwise_cons] at h
    by_cases hba : b.2 ≤ a.2
    · simp only [ordInsertDesc, if_pos hba]
      rw [List.pairwise_cons]
      constructor
      · intro x hx
        rcases List.mem_cons.mp hx with rfl | hx2
        · exact hba
        · exact le_trans (h.1 x hx2) hba
      · rw [List.pairwise_cons]
        exact h
    · simp only [ordInsertDesc, if_neg hba]
      rw [List.pairwise_cons]
      constructor
      · intro x hx
        have : x ∈ a :: t := (perm_ordInsertDesc a t).mem_iff.mp hx
        rcases List.mem_cons.mp this with rfl | hx2
        · exact le_of_lt (Nat.lt_of_not_le hba)
        · exact h.1 x hx2
      · exact ih h.2

theorem pairwise_sortVotesDesc :
    ∀ l : List (List Char × Nat),
      (sortVotesDesc l).Pairwise (fun x y => y.2 ≤ x.2) := by
  intro l
  induction l with
  | nil => exact List.Pairwise.nil
  | cons a t ih => exact pairwise_ordInsertDesc a (sortVotesDesc t) ih

theorem filter_ordInsertDesc (c : Nat) (a : List Char × Nat) :
    ∀ l : List (List Char × Nat),
      (ordInsertDesc a l).filter (fun p => p.2 == c) =
        ((a :: l).filter (fun p => p.2 == c)) := by
  intro l
  induction l with
  | nil => rfl
  | cons b t ih =>
    by_cases hba : b.2 ≤ a.2
    · simp [ordInsertDesc, hba]
    · have hab : a.2 < b.2 := Nat.lt_of_not_le hba
      simp only [ordInsertDesc, if_neg hba]
      by_cases hb : b.2 = c <;> by_cases ha : a.2 = c
      · omega
      · simp [List.filter_cons, hb, ha, ih]
      · simp [List.filter_cons, hb, ha, ih]
      · simp [List.filter_cons, hb, ha, ih]

theorem filter_sortVotesDesc (c : Nat) :
    ∀ l : List (List Char × Nat),
      (sortVotesDesc l).filter (fun p => p.2 == c) =
        l.filter (fun p => p.2 == c) := by
  intro l
  induction l with
  | nil => rfl
  | cons a t ih =>
    calc (ordInsertDesc a (sortVotesDesc t)).filter (fun p => p.2 == c)
        = ((a :: sortVotesDesc t).filter (fun p => p.2 == c)) :=
          filter_ordInsertDesc c a (sortVotesDesc t)
      _ = (a :: t).filter (fun p => p.2 == c) := by
          simp [List.filter_cons, ih]

/-- C1, amended.  For every session and kind, the ranked vote listing is a
permutation of the `(id, voter-count)` pairs of the vote mapping, sorted by
count descending; ties are kept in the order of the vote mapping itself
(Python dict insertion order — the order in which items first received their
surviving votes), which the per-count `filter` equations express; and under
the ledger invariant every listed pair has at least one vote.  The
presentation-order tie-break of the original claim holds only when first
votes arrive in presentation order. -/
theorem c1_ranked_amended (s : UserSession) :
    ((s.get_activities_by_votes).Perm
      (s.selected_activities.map (fun e => (e.1, e.2.length)))) ∧
    ((s.get_activities_by_votes).Pairwise (fun x y => y.2 ≤ x.2)) ∧
    (∀ c : Nat, (s.get_activities_by_votes).filter (fun p => p.2 == c) =
      (s.selected_activities.map (fun e => (e.1, e.2.length))).filter
        (fun p => p.2 == c)) ∧
    ((∀ e ∈ s.selected_activities, e.2 ≠ []) →
      ∀ p ∈ s.get_activities_by_votes, 1 ≤ p.2) ∧
    ((s.get_eateries_by_votes).Perm
      (s.selected_eateries.map (fun e => (e.1, e.2.length)))) ∧
    ((s.get_eateries_by_votes).Pairwise (fun x y => y.2 ≤ x.2)) ∧
    (∀ c : Nat, (s.get_eateries_by_votes).filter (fun p => p.2 == c) =
      (s.selected_eateries.map (fun e => (e.1, e.2.length))).filter
        (fun p => p.2 == c)) ∧
    ((∀ e ∈ s.selected_eateries, e.2 ≠ []) →
      ∀ p ∈ s.get_eateries_by_votes, 1 ≤ p.2) := by
  refine ⟨perm_sortVotesDesc _, pairwise_sortVotesDesc _,
    fun c => filter_sortVotesDesc c _, ?_,
    perm_sortVotesDesc _, pairwise_sortVotesDesc _,
    fun c => filter_sortVotesDesc c _, ?_⟩
  · intro hne p hp
    have : p ∈ s.selected_activities.map (fun e => (e.1, e.2.length)) :=
      (perm_sortVotesDesc _).mem_iff.mp hp
    obtain ⟨e, he, rfl⟩ := List.mem_map.mp this
    have := hne e he
    simpa [Nat.one_le_iff_ne_zero] using this
  · intro hne p hp
    have : p ∈ s.selected_eateries.map (fun e => (e.1, e.2.length)) :=
      (perm_sortVotesDesc _).mem_iff.mp hp
    obtain ⟨e, he, rfl⟩ := List.mem_map.mp this
    have := hne e he
    simpa [Nat.one_le_iff_ne_zero] using this

/-- The session of the scenario fixed in C1: candidates A, B, C presented in
that order, where one voter first voted for C and then for A (so A and C each
hold one vote and B none). -/
def c1Session : UserSession :=
  (({ freshSession 1 with
      activities :=
        [{ id := "001".toList, name := "A".toList, location := [],
           date_time := [], description := [], url := [],
           activity_type := kindActivity },
         { id := "002".toList, name := "B".toList, location := [],
           date_time := [], description := [], url := [],
           activity_type := kindActivity },
         { id := "003".toList, name := "C".toList, location := [],
           date_time := [], description := [], url := [],
           activity_type := kindActivity }],
      state := BotState.SELECTING_ACTIVITIES }).add_activity_vote
    ("003".toList) 7).add_activity_vote ("001".toList) 7

/-- C1, counterexample.  In the fixed scenario (A and C one vote each, B
none, presented in order A, B, C) the ranked listing is `[C, A]`, not the
`[A, C]` the claim requires: the tie-break is vote-arrival order, not
presentation order. -/
theorem c1_counterexample :
    c1Session.get_activities_by_votes =
      [(("003".toList), 1), (("001".toList), 1)] ∧
    c1Session.get_activities_by_votes ≠
      [(("001".toList), 1), (("003".toList), 1)] := by
  constructor
  · decide
  · decide

/-- Witness for C1's amended statement at the fixed scenario session. -/
theorem c1_ranked_amended_witness :
    ((c1Session.get_activities_by_votes).Perm
      (c1Session.selected_activities.map (fun e => (e.1, e.2.length)))) ∧
    (∀ p ∈ c1Session.get_activities_by_votes, 1 ≤ p.2) := by
  refine ⟨(c1_ranked_amended c1Session).1, ?_⟩
  exact (c1_ranked_amended c1Session).2.2.2.1 (by decide)

/-! ### Default selections (C5) -/

theorem foldl_addact_selected (u : Int) :
    ∀ (l : List Activity) (s : UserSession),
      (l.foldl (fun acc it => acc.add_activity_vote it.id u) s) =
        { s with selected_activities :=
            l.foldl (fun d it => dictAddVote d it.id u) s.selected_activities } := by
  intro l
  induction l with
  | nil => intro s; rfl
  | cons it rest ih =>
    intro s
    rw [List.foldl_cons, List.foldl_cons, ih]
    rfl

theorem foldl_addeat_selected (u : Int) :
    ∀ (l : List Activity) (s : UserSession),
      (l.foldl (fun acc it => acc.add_eatery_vote it.id u) s) =
        { s with selected_eateries :=
            l.foldl (fun d it => dictAddVote d it.id u) s.selected_eateries } := by
  intro l
  induction l with
  | nil => intro s; rfl
  | cons it rest ih =>
    intro s
    rw [List.foldl_cons, List.foldl_cons, ih]
    rfl

theorem dictHasVote_foldAdd (u : Int) :
    ∀ (ids : List (List Char)) (d : VoteDict) (k : List Char),
      dictHasVote (ids.foldl (fun d2 i => dictAddVote d2 i u) d) k u =
        (dictHasVote d k u || decide (k ∈ ids)) := by
  intro ids
  induction ids with
  | nil => intro d k; simp
  | cons i t ih =>
    intro d k
    rw [List.foldl_cons, ih, dictHasVote_addVote]
    rcases eq_or_ne i k with h2 | h2
    · subst h2
      simp [List.mem_cons]
    · have h2s : ¬(k = i) := fun h => h2 h.symm
      simp [h2, h2s, List.mem_cons, Bool.or_assoc]

theorem dictAddVote_entries_const (u : Int) (S : List (List Char)) :
    ∀ (d : VoteDict) (i : List Char),
      (∀ e ∈ d, e.2 = [u] ∧ e.1 ∈ S) → i ∈ S →
      ∀ e ∈ dictAddVote d i u, e.2 = [u] ∧ e.1 ∈ S := by
  intro d
  induction d with
  | nil =>
    intro i _ hi e he
    simp [dictAddVote] at he
    simp [he, hi]
  | cons e2 rest ih =>
    obtain ⟨k2, v⟩ := e2
    intro i hd hi e he
    by_cases hk : k2 = i
    · subst hk
      simp only [dictAddVote, if_pos rfl] at he
      rcases List.mem_cons.mp he with h1 | h1
      · have hv : v = [u] := (hd (k2, v) (by simp)).1
        have hk2 : k2 ∈ S := (hd (k2, v) (by simp)).2
        rw [h1]
        refine ⟨?_, hk2⟩
        simp [hv, setAddUser]
      · exact hd e (by simp [h1])
    · simp only [dictAddVote, if_neg hk] at he
      rcases List.mem_cons.mp he with h1 | h1
      · rw [h1]
        exact hd (k2, v) (by simp)
      · exact ih i (fun e3 he3 => hd e3 (by simp [he3])) hi e h1

theorem foldAdd_entries (u : Int) (S : List (List Char)) :
    ∀ (ids : List (List Char)) (d : VoteDict),
      (∀ i ∈ ids, i ∈ S) → (∀ e ∈ d, e.2 = [u] ∧ e.1 ∈ S) →
      ∀ e ∈ ids.foldl (fun d2 i => dictAddVote d2 i u) d, e.2 = [u] ∧ e.1 ∈ S := by
  intro ids
  induction ids with
  | nil => intro d _ hd e he; exact hd e he
  | cons i t ih =>
    intro d hids hd e he
    rw [List.foldl_cons] at he
    exact ih (dictAddVote d i u) (fun i2 hi2 => hids i2 (by simp [hi2]))
      (dictAddVote_entries_const u S d i hd (hids i (by simp))) e he

/-- C5.  `apply_default_selections` is a no-op returning `(0, [])` when any
vote exists for the kind; otherwise it casts a vote from the reserved system
voter (id 0) for exactly the first `K = min(DEFAULT_SELECTION_COUNT,
len(items))` candidates in presentation order, returns `K` and their names,
and is deterministic in the candidate list. -/
theorem c5_apply_defaults (s : UserSession) :
    (s.selected_activities ≠ [] →
      apply_default_selections s kindActivity 0 = (s, 0, [])) ∧
    (s.selected_activities = [] →
      ((apply_default_selections s kindActivity 0).2.1 =
        min DEFAULT_SELECTION_COUNT s.activities.length) ∧
      ((apply_default_selections s kindActivity 0).2.2 =
        (s.activities.take (min DEFAULT_SELECTION_COUNT s.activities.length)).map
          (fun it => it.name)) ∧
      (∀ it ∈ s.activities.take (min DEFAULT_SELECTION_COUNT s.activities.length),
        ((apply_default_selections s kindActivity 0).1).has_activity_vote it.id 0 =
          true) ∧
      (∀ e ∈ ((apply_default_selections s kindActivity 0).1).selected_activities,
        e.2 = [(0 : Int)] ∧
        e.1 ∈ (s.activities.take
          (min DEFAULT_SELECTION_COUNT s.activities.length)).map (fun it => it.id))) ∧
    (∀ s2 : UserSession, s2.activities = s.activities →
      s.selected_activities = [] → s2.selected_activities = [] →
      (apply_default_selections s kindActivity 0).2 =
        (apply_default_selections s2 kindActivity 0).2) ∧
    (s.selected_eateries ≠ [] →
      apply_default_selections s kindFood 0 = (s, 0, [])) ∧
    (s.selected_eateries = [] →
      ((apply_default_selections s kindFood 0).2.1 =
        min DEFAULT_SELECTION_COUNT s.eateries.length) ∧
      ((apply_default_selections s kindFood 0).2.2 =
        (s.eateries.take (min DEFAULT_SELECTION_COUNT s.eateries.length)).map
          (fun it => it.name)) ∧
      (∀ it ∈ s.eateries.take (min DEFAULT_SELECTION_COUNT s.eateries.length),
        ((apply_default_selections s kindFood 0).1).has_eatery_vote it.id 0 =
          true) ∧
      (∀ e ∈ ((apply_default_selections s kindFood 0).1).selected_eateries,
        e.2 = [(0 : Int)] ∧
        e.1 ∈ (s.eateries.take
          (min DEFAULT_SELECTION_COUNT s.eateries.length)).map (fun it => it.id))) ∧
    (∀ s2 : UserSession, s2.eateries = s.eateries →
      s.selected_eateries = [] → s2.selected_eateries = [] →
      (apply_default_selections s kindFood 0).2 =
        (apply_default_selections s2 kindFood 0).2) := by
  have hkf : ¬(kindFood = kindActivity) := by decide
  refine ⟨?_, ?_, ?_, ?_, ?_, ?_⟩
  · intro h
    unfold apply_default_selections
    simp [h]
  · intro h
    refine ⟨?_, ?_, ?_, ?_⟩
    · unfold apply_default_selections
      simp [h]
    · unfold apply_default_selections
      simp [h]
    · intro it hit
      unfold apply_default_selections
      simp only [eq_self_iff_true, if_true, ite_true, ne_eq, h, not_true_eq_false,
        if_false, ite_false]
      rw [foldl_addact_selected]
      show dictHasVote _ it.id 0 = true
      rw [h, ← List.foldl_map (fun it2 : Activity => it2.id)
        (fun d2 i => dictAddVote d2 i 0), dictHasVote_foldAdd]
      simp
      exact Or.inr (by rw [← List.map_take]; exact List.mem_map_of_mem _ hit)
    · intro e he
      refine foldAdd_entries 0
        ((s.activities.take (min DEFAULT_SELECTION_COUNT s.activities.length)).map
          (fun it => it.id))
        ((s.activities.take (min DEFAULT_SELECTION_COUNT s.activities.length)).map
          (fun it => it.id)) [] (fun i hi => hi) (by simp) e ?_
      revert he
      unfold apply_default_selections
      simp only [eq_self_iff_true, if_true, ite_true, ne_eq, h, not_true_eq_false,
        if_false, ite_false]
      rw [foldl_addact_selected]
      intro he
      rw [h] at he
      rw [List.foldl_map]
      exact he
  · intro s2 hact h h2
    unfold apply_default_selections
    simp [h, h2, hact]
  · intro h
    unfold apply_default_selections
    simp [h, hkf]
  · intro h
    refine ⟨?_, ?_, ?_, ?_⟩
    · unfold apply_default_selections
      simp [h, hkf]
    · unfold apply_default_selections
      simp [h, hkf]
    · intro it hit
      unfold apply_default_selections
      simp only [hkf, if_false, ite_false, ne_eq, h, not_true_eq_false,
        not_false_eq_true]
      rw [foldl_addeat_selected]
      show dictHasVote _ it.id 0 = true
      rw [h, ← List.foldl_map (fun it2 : Activity => it2.id)
        (fun d2 i => dictAddVote d2 i 0), dictHasVote_foldAdd]
      simp
      exact Or.inr (by rw [← List.map_take]; exact List.mem_map_of_mem _ hit)
    · intro e he
      refine foldAdd_entries 0
        ((s.eateries.take (min DEFAULT_SELECTION_COUNT s.eateries.length)).map
          (fun it => it.id))
        ((s.eateries.take (min DEFAULT_SELECTION_COUNT s.eateries.length)).map
          (fun it => it.id)) [] (fun i hi => hi) (by simp) e ?_
      revert he
      unfold apply_default_selections
      simp only [hkf, if_false, ite_false, ne_eq, h, not_true_eq_false,
        not_false_eq_true]
      rw [foldl_addeat_selected]
      intro he
      rw [h] at he
      rw [List.foldl_map]
      exact he
  · intro s2 heat h h2
    unfold apply_default_selections
    simp [h, h2, heat, hkf]

/-- A session with two activity candidates and no votes yet. -/
def c5Session : UserSession :=
  { freshSession 2 with
    activities :=
      [{ id := "001".toList, name := "A".toList, location := [],
         date_time := [], description := [], url := [],
         activity_type := kindActivity },
       { id := "002".toList, name := "B".toList, location := [],
         date_time := [], description := [], url := [],
         activity_type := kindActivity }] }

/-- A session that already holds one eatery vote. -/
def c5VotedSession : UserSession :=
  { freshSession 2 with selected_eateries := [(("001".toList), [5])] }

/-- Witness for C5 at concrete sessions: with no votes the defaults pick
`min 3 2 = 2` candidates; with a vote present the call is a no-op. -/
theorem c5_apply_defaults_witness :
    ((apply_default_selections c5Session kindActivity 0).2.1 =
      min DEFAULT_SELECTION_COUNT c5Session.activities.length) ∧
    (apply_default_selections c5VotedSession kindFood 0 =
      (c5VotedSession, 0, [])) := by
  constructor
  · exact ((c5_apply_defaults c5Session).2.1 (by decide)).1
  · exact (c5_apply_defaults c5VotedSession).2.2.2.1 (by decide)

/-! ### Hotel input handling (C8) -/

/-- C8.  In `WAITING_FOR_HOTEL`: a hotel-parse failure (`none`) leaves the
session unchanged (so it stays in `WAITING_FOR_HOTEL`); only a successful
parse stores the hotel and moves to `CONFIRMING_HOTEL`; and inside
`parse_hotel`, structured-parsing failure (an LLM exception or a JSON decode
error) falls back to a low-confidence literal echo of the user's input
instead of raising. -/
theorem c8_hotel_parse (s : UserSession) (input : List Char) :
    (s.state = BotState.WAITING_FOR_HOTEL →
      handle_text s none = s) ∧
    (s.state = BotState.WAITING_FOR_HOTEL → ∀ h : HotelInfo,
      (handle_text s (some h)).state = BotState.CONFIRMING_HOTEL ∧
      (handle_text s (some h)).hotel = some h) ∧
    (parse_hotel input HotelParseOutcome.jsonFailure =
      { raw_input := input, name := pyTitle input,
        area := "Unknown".toList, confidence := "low".toList }) ∧
    (parse_hotel input HotelParseOutcome.llmFailure =
      { raw_input := input, name := pyTitle input,
        area := "Unknown".toList, confidence := "low".toList }) := by
  refine ⟨?_, ?_, rfl, rfl⟩
  · intro hst
    simp [handle_text, hst]
  · intro hst h
    simp [handle_text, hst]

/-- Witness for C8 at a fresh waiting-for-hotel session and a concrete
input. -/
theorem c8_hotel_parse_witness :
    (handle_text (planCommand 4) none = planCommand 4) ∧
    ((handle_text (planCommand 4)
      (some (parse_hotel ("bintan lagoon".toList)
        HotelParseOutcome.jsonFailure))).state = BotState.CONFIRMING_HOTEL) ∧
    ((parse_hotel ("bintan lagoon".toList)
      HotelParseOutcome.jsonFailure).confidence = "low".toList) := by
  refine ⟨?_, ?_, ?_⟩
  · exact (c8_hotel_parse (planCommand 4) []).1 (by decide)
  · exact (((c8_hotel_parse (planCommand 4) []).2.1 (by decide)) _).1
  · have := (c8_hotel_parse (planCommand 4) ("bintan lagoon".toList)).2.2.1
    rw [this]

/-! ### The step guard (C3) -/

/-- C3.  Every callback event whose required step (the state checked by the
guard at the top of its handler) differs from the session's current step
leaves the session completely unchanged. -/
theorem c3_state_guard (s : UserSession) (data : List Char) (user : Int)
    (ext : Externals) (st : BotState)
    (hreq : callbackRequiredState data = some st) (hne : s.state ≠ st) :
    handleCallback s data user ext = s := by
  have hkf : ¬(kindFood = kindActivity) := by decide
  unfold callbackRequiredState at hreq
  unfold handleCallback
  split_ifs with h1 h2 h3 h4 h5 h6 h7
  · rw [if_pos h1] at hreq
    injection hreq with hst
    subst hst
    simp [handle_hotel_confirmation, hne]
  · rw [if_neg h1, if_pos h2] at hreq
    injection hreq with hst
    subst hst
    simp [handle_days_selection, hne]
  · rw [if_neg h1, if_neg h2, if_pos h3] at hreq
    injection hreq with hst
    subst hst
    simp [handle_selection, hne]
  · rw [if_neg h1, if_neg h2, if_neg h3, if_pos h4] at hreq
    injection hreq with hst
    subst hst
    simp [handle_selection, hne, hkf]
  · rw [if_neg h1, if_neg h2, if_neg h3, if_neg h4, if_pos h5] at hreq
    injection hreq with hst
    subst hst
    simp [handle_done_activities, hne]
  · rw [if_neg h1, if_neg h2, if_neg h3, if_neg h4, if_neg h5, if_pos h6] at hreq
    injection hreq with hst
    subst hst
    simp [handle_done_food, hne]
  · rw [if_neg h1, if_neg h2, if_neg h3, if_neg h4, if_neg h5, if_neg h6,
      if_pos h7] at hreq
    injection hreq with hst
    subst hst
    simp [handle_itinerary_action, hne]
  · rfl

/-- Witness for C3: a `done_act` tap while the session is still idle leaves
the fresh session untouched. -/
theorem c3_state_guard_witness :
    callbackRequiredState ("done_act".toList) =
      some BotState.SELECTING_ACTIVITIES ∧
    (freshSession 0).state ≠ BotState.SELECTING_ACTIVITIES ∧
    handleCallback (freshSession 0) ("done_act".toList) 9
      { searchActivitiesRes := none, searchFoodRes := none,
        generateRes := none } = freshSession 0 := by
  refine ⟨by decide, by decide, ?_⟩
  exact c3_state_guard (freshSession 0) ("done_act".toList) 9
    { searchActivitiesRes := none, searchFoodRes := none, generateRes := none }
    BotState.SELECTING_ACTIVITIES (by decide) (by decide)

/-! ### Unvalidated vote ids and the finalizer's defensive drop (C10) -/

theorem splitOnChar_of_not_mem {sep : Char} :
    ∀ {l : List Char}, sep ∉ l → splitOnChar sep l = [l] := by
  intro l
  induction l with
  | nil => intro _; rfl
  | cons c t ih =>
    intro h
    have hc : ¬(c = sep) := fun hc => h (by simp [hc])
    have ht : sep ∉ t := fun ht => h (by simp [ht])
    simp [splitOnChar, hc, ih ht]

theorem lookupItemLast_mem {items : List Activity} {k : List Char} {a : Activity}
    (h : lookupItemLast items k = some a) : a ∈ items ∧ a.id = k := by
  unfold lookupItemLast at h
  constructor
  · exact List.mem_reverse.mp (List.mem_of_find?_eq_some h)
  · have := List.find?_some h
    simpa using this

theorem mem_foldl_lookup (items : List Activity) :
    ∀ (votes : List (List Char × Nat)) (acc : List Activity) (a : Activity),
      a ∈ votes.foldl
        (fun acc2 p =>
          match lookupItemLast items p.1 with
          | some it => acc2 ++ [it]
          | none => acc2) acc →
      a ∈ acc ∨ a ∈ items := by
  intro votes
  induction votes with
  | nil => intro acc a ha; exact Or.inl ha
  | cons p rest ih =>
    intro acc a ha
    rw [List.foldl_cons] at ha
    cases hl : lookupItemLast items p.1 with
    | none =>
      rw [hl] at ha
      exact ih acc a ha
    | some it =>
      rw [hl] at ha
      rcases ih _ a ha with hacc | hitems
      · rcases List.mem_append.mp hacc with h1 | h1
        · exact Or.inl h1
        · simp at h1
          subst h1
          exact Or.inr (lookupItemLast_mem hl).1
      · exact Or.inr hitems

theorem mem_prioritized_activities {s : UserSession} {a : Activity}
    (h : a ∈ get_prioritized_selections s kindActivity) : a ∈ s.activities := by
  unfold get_prioritized_selections at h
  simp only [eq_self_iff_true, if_true, ite_true] at h
  rcases mem_foldl_lookup s.activities _ [] a h with h1 | h1
  · simp at h1
  · exact h1

theorem mem_prioritized_eateries {s : UserSession} {a : Activity}
    (h : a ∈ get_prioritized_selections s kindFood) : a ∈ s.eateries := by
  have hkf : ¬(kindFood = kindActivity) := by decide
  unfold get_prioritized_selections at h
  simp only [hkf, if_false, ite_false] at h
  rcases mem_foldl_lookup s.eateries _ [] a h with h1 | h1
  · simp at h1
  · exact h1

/-- C10, amended.  A `sel` callback in the matching selecting step records a
vote for the third underscore-separated token of the payload with no
validation against the candidate list — for every underscore-free id
(including ids absent from the candidates) the vote lands on exactly that
id; an id containing an underscore is truncated (see the counterexample).
The finalizer drops every id that is not in the candidate list: the
prioritized selection only contains candidates, so an absent id never
reaches itinerary generation. -/
theorem c10_amended (s : UserSession) (user : Int) (ext : Externals)
    (item : List Char) :
    ('_' ∉ item → s.state = BotState.SELECTING_ACTIVITIES →
      (handleCallback s ("sel_act_".toList ++ item) user ext).has_activity_vote
        item user = true) ∧
    ('_' ∉ item → s.state = BotState.SELECTING_FOOD →
      (handleCallback s ("sel_fod_".toList ++ item) user ext).has_eatery_vote
        item user = true) ∧
    (∀ a ∈ get_prioritized_selections s kindActivity, a ∈ s.activities) ∧
    (∀ a ∈ get_prioritized_selections s kindFood, a ∈ s.eateries) ∧
    (item ∉ s.activities.map (fun a2 => a2.id) →
      ∀ a ∈ get_prioritized_selections s kindActivity, a.id ≠ item) ∧
    (item ∉ s.eateries.map (fun a2 => a2.id) →
      ∀ a ∈ get_prioritized_selections s kindFood, a.id ≠ item) := by
  refine ⟨?_, ?_, fun a ha => mem_prioritized_activities ha,
    fun a ha => mem_prioritized_eateries ha, ?_, ?_⟩
  · intro h hst
    have hsplit : splitOnChar '_' ("sel_act_".toList ++ item) =
        ["sel".toList, "act".toList, item] := by
      simp [splitOnChar, splitOnChar_of_not_mem h]
    have hno1 : ¬("sel_act_".toList ++ item = "htl_yes".toList ∨
        "sel_act_".toList ++ item = "htl_no".toList) := by
      rintro (h2 | h2) <;> simp at h2
    have hno2 : ¬(("days_".toList).isPrefixOf ("sel_act_".toList ++ item) = true) := by
      simp [List.isPrefixOf]
    have hyes3 : ("sel_act_".toList).isPrefixOf ("sel_act_".toList ++ item) = true := by
      simp [List.isPrefixOf]
    unfold handleCallback
    rw [if_neg hno1, if_neg hno2, if_pos (Or.inl hyes3)]
    unfold handle_selection
    simp only [eq_self_iff_true, if_true, ite_true, hst, hsplit]
    simp [UserSession.has_activity_vote, UserSession.add_activity_vote,
      dictHasVote_addVote_self]
  · intro h hst
    have hkf : ¬(kindFood = kindActivity) := by decide
    have hsplit : splitOnChar '_' ("sel_fod_".toList ++ item) =
        ["sel".toList, "fod".toList, item] := by
      simp [splitOnChar, splitOnChar_of_not_mem h]
    have hno1 : ¬("sel_fod_".toList ++ item = "htl_yes".toList ∨
        "sel_fod_".toList ++ item = "htl_no".toList) := by
      rintro (h2 | h2) <;> simp at h2
    have hno2 : ¬(("days_".toList).isPrefixOf ("sel_fod_".toList ++ item) = true) := by
      simp [List.isPrefixOf]
    have hno3 : ¬(("sel_act_".toList).isPrefixOf ("sel_fod_".toList ++ item) = true ∨
        ("des_act_".toList).isPrefixOf ("sel_fod_".toList ++ item) = true) := by
      rintro (h2 | h2) <;> simp [List.isPrefixOf] at h2
    have hyes4 : ("sel_fod_".toList).isPrefixOf ("sel_fod_".toList ++ item) = true := by
      simp [List.isPrefixOf]
    unfold handleCallback
    rw [if_neg hno1, if_neg hno2, if_neg hno3, if_pos (Or.inl hyes4)]
    unfold handle_selection
    simp only [hkf, if_false, ite_false, hst, hsplit]
    simp [hkf, UserSession.has_eatery_vote, UserSession.add_eatery_vote,
      dictHasVote_addVote_self]
  · intro habs a ha hid
    exact habs (hid ▸ List.mem_map_of_mem (fun a2 => a2.id)
      (mem_prioritized_activities ha))
  · intro habs a ha hid
    exact habs (hid ▸ List.mem_map_of_mem (fun a2 => a2.id)
      (mem_prioritized_eateries ha))

/-- Witness for C10 at a concrete session: voting for an id that is not
among the candidates records the vote, and the finalizer returns only
candidates. -/
theorem c10_amended_witness :
    ((handleCallback { freshSession 5 with state := BotState.SELECTING_ACTIVITIES }
      ("sel_act_".toList ++ "999".toList) 9
      { searchActivitiesRes := none, searchFoodRes := none,
        generateRes := none }).has_activity_vote ("999".toList) 9 = true) ∧
    (∀ a ∈ get_prioritized_selections
        { freshSession 5 with state := BotState.SELECTING_ACTIVITIES }
        kindActivity,
      a ∈ ({ freshSession 5 with
        state := BotState.SELECTING_ACTIVITIES } : UserSession).activities) := by
  constructor
  · exact (c10_amended { freshSession 5 with state := BotState.SELECTING_ACTIVITIES }
      9 { searchActivitiesRes := none, searchFoodRes := none, generateRes := none }
      ("999".toList)).1 (by decide) rfl
  · exact (c10_amended { freshSession 5 with state := BotState.SELECTING_ACTIVITIES }
      9 { searchActivitiesRes := none, searchFoodRes := none, generateRes := none }
      ("999".toList)).2.2.1

/-- C10, counterexample.  For the item id `ab_cd` (which contains an
underscore) the select callback in the matching step does not record a vote
for that id: the handler votes for the truncated token `ab` instead. -/
theorem c10_counterexample :
    ((handleCallback { freshSession 6 with state := BotState.SELECTING_ACTIVITIES }
      ("sel_act_ab_cd".toList) 9
      { searchActivitiesRes := none, searchFoodRes := none,
        generateRes := none }).has_activity_vote ("ab_cd".toList) 9 = false) ∧
    ((handleCallback { freshSession 6 with state := BotState.SELECTING_ACTIVITIES }
      ("sel_act_ab_cd".toList) 9
      { searchActivitiesRes := none, searchFoodRes := none,
        generateRes := none }).has_activity_vote ("ab".toList) 9 = true) := by
  constructor
  · decide
  · decide

/-! ### Candidate id assignment (C7) -/

/-- The 1-based indices of the generator-output lines the extraction keeps
(non-empty after strip, containing a pipe, at least five fields) — the
characterization the parsed ids are compared against. -/
def keptLineIdx : List (List Char) → Nat → List Nat
  | [], _ => []
  | line :: rest, idx =>
    let l := stripChars line
    if l = [] ∨ ¬ '|' ∈ l then keptLineIdx rest (idx + 1)
    else if 5 ≤ (splitOnChar '|' l).length then idx :: keptLineIdx rest (idx + 1)
    else keptLineIdx rest (idx + 1)

theorem digitVal_digitChar {d : Nat} (h : d < 10) :
    digitVal (Nat.digitChar d) = d := by
  interval_cases d <;> rfl

theorem digitsVal_concat (l : List Char) (c : Char) :
    digitsVal (l ++ [c]) = 10 * digitsVal l + digitVal c := by
  simp [digitsVal, List.foldl_append]

theorem digitsVal_natDigitsGo :
    ∀ (fuel n : Nat), n < fuel → digitsVal (natDigitsGo fuel n) = n := by
  intro fuel
  induction fuel with
  | zero => intro n h; omega
  | succ fuel ih =>
    intro n h
    unfold natDigitsGo
    split
    · rename_i h10
      simp [digitsVal, digitVal_digitChar h10]
    · rename_i h10
      have hdn : n / 10 < n := Nat.div_lt_self (by omega) (by omega)
      have hdiv : n / 10 < fuel := by omega
      rw [digitsVal_concat, ih (n / 10) hdiv,
        digitVal_digitChar (Nat.mod_lt n (by omega))]
      omega

theorem digitsVal_natDigits : ∀ n : Nat, digitsVal (natDigits n) = n := by
  intro n
  exact digitsVal_natDigitsGo (n + 1) n (by omega)

theorem digitsVal_replicate_zero : ∀ k : Nat,
    (List.replicate k '0').foldl (fun a c => 10 * a + digitVal c) 0 = 0 := by
  intro k
  induction k with
  | zero => rfl
  | succ k ih => simpa [List.replicate_succ, digitVal] using ih

theorem digitsVal_pad3 (n : Nat) : digitsVal (pad3 n) = n := by
  unfold pad3 digitsVal
  rw [List.foldl_append, digitsVal_replicate_zero]
  exact digitsVal_natDigits n

theorem pad3_injective {a b : Nat} (h : pad3 a = pad3 b) : a = b := by
  have := congrArg digitsVal h
  rwa [digitsVal_pad3, digitsVal_pad3] at this

theorem parseLinesGo_ids (maxRec : Nat)
    (mk : List Char → List (List Char) → Activity)
    (hmk : ∀ i parts, (mk i parts).id = i) :
    ∀ (lines : List (List Char)) (idx : Nat) (acc : List Activity),
      acc.length < maxRec →
      (parseLinesGo maxRec mk lines idx acc).map (fun a => a.id) =
        acc.map (fun a => a.id) ++
          ((keptLineIdx lines idx).take (maxRec - acc.length)).map pad3 := by
  intro lines
  induction lines with
  | nil => intro idx acc _; simp [parseLinesGo, keptLineIdx]
  | cons line rest ih =>
    intro idx acc hlen
    by_cases hskip : stripChars line = [] ∨ ¬ '|' ∈ stripChars line
    · simp only [parseLinesGo, keptLineIdx]
      rw [if_pos hskip, if_pos hskip]
      exact ih (idx + 1) acc hlen
    · by_cases hparts : 5 ≤ (splitOnChar '|' (stripChars line)).length
      · by_cases hmax : maxRec ≤ (acc ++ [mk (pad3 idx) (splitOnChar '|'
            (stripChars line))]).length
        · have hdiff : maxRec - acc.length = 1 := by
            simp at hmax
            omega
          simp only [parseLinesGo, keptLineIdx]
          rw [if_neg hskip, if_neg hskip, if_pos hparts, if_pos hparts,
            if_pos hmax, hdiff]
          simp [hmk]
        · have hlen2 : (acc ++ [mk (pad3 idx)
              (splitOnChar '|' (stripChars line))]).length < maxRec := by
            omega
          have hdiff : maxRec - acc.length =
              (maxRec - (acc ++ [mk (pad3 idx)
                (splitOnChar '|' (stripChars line))]).length) + 1 := by
            simp at hlen2 ⊢
            omega
          simp only [parseLinesGo, keptLineIdx]
          rw [if_neg hskip, if_neg hskip, if_pos hparts, if_pos hparts,
            if_neg hmax, ih (idx + 1) _ hlen2, hdiff]
          simp [hmk]
      · simp only [parseLinesGo, keptLineIdx]
        rw [if_neg hskip, if_neg hskip, if_neg hparts, if_neg hparts]
        exact ih (idx + 1) acc hlen

theorem keptLineIdx_le : ∀ (lines : List (List Char)) (idx : Nat),
    ∀ x ∈ keptLineIdx lines idx, idx ≤ x := by
  intro lines
  induction lines with
  | nil => intro idx x hx; simp [keptLineIdx] at hx
  | cons line rest ih =>
    intro idx x hx
    simp only [keptLineIdx] at hx
    split at hx
    · exact le_trans (by omega) (ih (idx + 1) x hx)
    · split at hx
      · rcases List.mem_cons.mp hx with rfl | hx2
        · exact le_refl x
        · exact le_trans (by omega) (ih (idx + 1) x hx2)
      · exact le_trans (by omega) (ih (idx + 1) x hx)

theorem keptLineIdx_pairwise : ∀ (lines : List (List Char)) (idx : Nat),
    (keptLineIdx lines idx).Pairwise (fun a b => a < b) := by
  intro lines
  induction lines with
  | nil => intro idx; exact List.Pairwise.nil
  | cons line rest ih =>
    intro idx
    simp only [keptLineIdx]
    split
    · exact ih (idx + 1)
    · split
      · rw [List.pairwise_cons]
        exact ⟨fun x hx => lt_of_lt_of_le (by omega) (keptLineIdx_le rest (idx + 1) x hx),
          ih (idx + 1)⟩
      · exact ih (idx + 1)

/-- C7, amended.  The ids of the candidates kept from one generator output
are exactly the zero-padded 1-based positions, among all output lines, of
the lines that were kept (truncated to the maximum candidate count); the
underlying positions are strictly increasing, so the ids are unique within
the round and kind.  They are the gap-free sequence `001 … 00N` only when no
line before the last kept line is skipped: a skipped line consumes an index
(see the counterexample). -/
theorem c7_ids_amended (maxRec : Nat) (content : List Char)
    (hmax : 1 ≤ maxRec) :
    ((parse_activities_with_llm maxRec content).map (fun a => a.id) =
      ((keptLineIdx (splitOnChar '\n' content) 1).take maxRec).map pad3) ∧
    ((parse_food_with_llm maxRec content).map (fun a => a.id) =
      ((keptLineIdx (splitOnChar '\n' content) 1).take maxRec).map pad3) ∧
    (((parse_activities_with_llm maxRec content).map (fun a => a.id)).Pairwise
      (fun x y => x ≠ y)) ∧
    (((parse_food_with_llm maxRec content).map (fun a => a.id)).Pairwise
      (fun x y => x ≠ y)) := by
  have hids1 := parseLinesGo_ids maxRec mkParsedActivity (fun _ _ => rfl)
    (splitOnChar '\n' content) 1 [] (by simpa using hmax)
  have hids2 := parseLinesGo_ids maxRec mkParsedFood (fun _ _ => rfl)
    (splitOnChar '\n' content) 1 [] (by simpa using hmax)
  simp only [List.map_nil, List.nil_append, Nat.sub_zero, List.length_nil] at hids1 hids2
  have hpw : (((keptLineIdx (splitOnChar '\n' content) 1).take maxRec).map
      pad3).Pairwise (fun x y => x ≠ y) := by
    apply List.Pairwise.map
    · intro a b hab
      exact fun hpad => absurd (pad3_injective hpad) (Nat.ne_of_lt hab)
    · exact (keptLineIdx_pairwise (splitOnChar '\n' content) 1).sublist
        (List.take_sublist maxRec _)
  exact ⟨hids1, hids2, hids1 ▸ hpw, hids2 ▸ hpw⟩

/-- Witness for C7 at a concrete generator output with a skipped first
line. -/
theorem c7_ids_amended_witness :
    (parse_activities_with_llm 10 ("x\nA|B|C|D|E".toList)).map (fun a => a.id) =
      ((keptLineIdx (splitOnChar '\n' ("x\nA|B|C|D|E".toList)) 1).take 10).map
        pad3 := by
  exact (c7_ids_amended 10 ("x\nA|B|C|D|E".toList) (by omega)).1

/-- C7, counterexample.  One candidate is kept from the output
`"x\nA|B|C|D|E"` (the first line is skipped), and its id is `002`, not the
`001` that a gap-free sequential assignment would give. -/
theorem c7_counterexample :
    (parse_activities_with_llm 10 ("x\nA|B|C|D|E".toList)).map (fun a => a.id) =
      [("002".toList)] ∧
    (parse_activities_with_llm 10 ("x\nA|B|C|D|E".toList)).map (fun a => a.id) ≠
      [("001".toList)] := by
  constructor
  · decide
  · decide

/-! ### The `num_days` bound (C9) -/

/-- The `num_days` invariant: zero before the days step completes (hotel
states), within 1–5 once a later step is reached, and either of the two in
`IDLE`/`SELECTING_DAYS` (a finished trip returns to `IDLE` with its day
count; a failed activity search leaves `SELECTING_DAYS` with the picked
count). -/
def daysInv (s : UserSession) : Prop :=
  ((s.state = BotState.WAITING_FOR_HOTEL ∨ s.state = BotState.CONFIRMING_HOTEL) →
    s.num_days = 0) ∧
  ((s.state = BotState.SELECTING_ACTIVITIES ∨ s.state = BotState.SELECTING_FOOD ∨
    s.state = BotState.GENERATING ∨ s.state = BotState.REVIEWING_ITINERARY) →
    1 ≤ s.num_days ∧ s.num_days ≤ 5) ∧
  ((s.state = BotState.IDLE ∨ s.state = BotState.SELECTING_DAYS) →
    s.num_days = 0 ∨ (1 ≤ s.num_days ∧ s.num_days ≤ 5))

/-- An event whose days payload (if any) was produced by the days keyboard. -/
def eventOk : BotEvent → Prop
  | BotEvent.callback data _ _ =>
    ("days_".toList).isPrefixOf data = true → data ∈ daysKeyboardPayloads
  | _ => True

/-- Run a list of events against a fresh session for a chat. -/
def runEvents (cid : Int) (evs : List BotEvent) : UserSession :=
  evs.foldl stepEvent (freshSession cid)

theorem daysInv_congr {s s2 : UserSession} (hst : s2.state = s.state)
    (hnd : s2.num_days = s.num_days) (h : daysInv s) : daysInv s2 := by
  unfold daysInv at *
  rw [hst, hnd]
  exact h

theorem ite_proj {α : Type _} {β : Type _} (f : α → β) (c : Prop) [Decidable c]
    (x1 x2 : α) (v : β) (h1 : f x1 = v) (h2 : f x2 = v) :
    f (if c then x1 else x2) = v := by
  split
  · exact h1
  · exact h2

theorem handle_selection_preserves (s : UserSession) (data t : List Char)
    (user : Int) :
    (handle_selection s data t user).state = s.state ∧
    (handle_selection s data t user).num_days = s.num_days := by
  constructor
  · show UserSession.state (handle_selection s data t user) = s.state
    unfold handle_selection
    apply ite_proj
    · rfl
    · apply ite_proj <;> (apply ite_proj <;> rfl)
  · show UserSession.num_days (handle_selection s data t user) = s.num_days
    unfold handle_selection
    apply ite_proj
    · rfl
    · apply ite_proj <;> (apply ite_proj <;> rfl)

theorem foldAddVotes_preserves (t : List Char) (u : Int) :
    ∀ (l : List Activity) (s : UserSession),
      ((l.foldl
        (fun acc it =>
          if t = kindActivity then acc.add_activity_vote it.id u
          else acc.add_eatery_vote it.id u) s).state = s.state ∧
       (l.foldl
        (fun acc it =>
          if t = kindActivity then acc.add_activity_vote it.id u
          else acc.add_eatery_vote it.id u) s).num_days = s.num_days) := by
  intro l
  induction l with
  | nil => intro s; exact ⟨rfl, rfl⟩
  | cons it rest ih =>
    intro s
    rw [List.foldl_cons]
    constructor
    · rw [(ih _).1]
      exact ite_proj UserSession.state _ _ _ _ rfl rfl
    · rw [(ih _).2]
      exact ite_proj UserSession.num_days _ _ _ _ rfl rfl

theorem apply_defaults_preserves (s : UserSession) (t : List Char) :
    ((apply_default_selections s t 0).1).state = s.state ∧
    ((apply_default_selections s t 0).1).num_days = s.num_days := by
  constructor
  · show UserSession.state (apply_default_selections s t 0).1 = s.state
    unfold apply_default_selections
    apply ite_proj (fun x : UserSession × Nat × List (List Char) =>
      UserSession.state x.1)
    · rfl
    · exact (foldAddVotes_preserves t 0 _ s).1
  · show UserSession.num_days (apply_default_selections s t 0).1 = s.num_days
    unfold apply_default_selections
    apply ite_proj (fun x : UserSession × Nat × List (List Char) =>
      UserSession.num_days x.1)
    · rfl
    · exact (foldAddVotes_preserves t 0 _ s).2

theorem daysInv_handle_days (s : UserSession) (ext : Externals)
    (data : List Char) (k : Int) (hk1 : 1 ≤ k) (hk5 : k ≤ 5)
    (hparse : pyInt ((splitOnChar '_' data).getD 1 []) = some k)
    (hs : daysInv s) : daysInv (handle_days_selection s data ext) := by
  unfold handle_days_selection
  by_cases hst : s.state ≠ BotState.SELECTING_DAYS
  · rw [if_pos hst]
    exact hs
  · rw [if_neg hst]
    push_neg at hst
    rw [hparse]
    show daysInv (start_activity_selection { s with num_days := k } ext)
    unfold start_activity_selection
    cases hext : ext.searchActivitiesRes with
    | none =>
      refine ⟨fun h => ?_, fun h => ?_, fun _ => Or.inr ⟨hk1, hk5⟩⟩
      · have h2 : s.state = BotState.WAITING_FOR_HOTEL ∨
            s.state = BotState.CONFIRMING_HOTEL := h
        rw [hst] at h2
        rcases h2 with h2 | h2 <;> exact absurd h2 (by decide)
      · have h2 : s.state = BotState.SELECTING_ACTIVITIES ∨
            s.state = BotState.SELECTING_FOOD ∨
            s.state = BotState.GENERATING ∨
            s.state = BotState.REVIEWING_ITINERARY := h
        rw [hst] at h2
        rcases h2 with h2 | h2 | h2 | h2 <;> exact absurd h2 (by decide)
    | some l =>
      cases l with
      | nil =>
        refine ⟨fun h => ?_, fun h => ?_, fun _ => Or.inr ⟨hk1, hk5⟩⟩
        · have h2 : s.state = BotState.WAITING_FOR_HOTEL ∨
              s.state = BotState.CONFIRMING_HOTEL := h
          rw [hst] at h2
          rcases h2 with h2 | h2 <;> exact absurd h2 (by decide)
        · have h2 : s.state = BotState.SELECTING_ACTIVITIES ∨
              s.state = BotState.SELECTING_FOOD ∨
              s.state = BotState.GENERATING ∨
              s.state = BotState.REVIEWING_ITINERARY := h
          rw [hst] at h2
          rcases h2 with h2 | h2 | h2 | h2 <;> exact absurd h2 (by decide)
      | cons a rest =>
        exact ⟨by simp, fun _ => ⟨hk1, hk5⟩, by simp⟩

theorem daysInv_hotel_conf (s : UserSession) (data : List Char)
    (hs : daysInv s) : daysInv (handle_hotel_confirmation s data) := by
  unfold handle_hotel_confirmation
  by_cases hst : s.state ≠ BotState.CONFIRMING_HOTEL
  · rw [if_pos hst]
    exact hs
  · rw [if_neg hst]
    push_neg at hst
    have hnd : s.num_days = 0 := hs.1 (Or.inr hst)
    split
    · show daysInv (start_days_selection s)
      unfold start_days_selection
      exact ⟨by simp, by simp, fun _ => Or.inl hnd⟩
    · exact ⟨fun _ => hnd, by simp, by simp⟩

theorem daysInv_done_act (s : UserSession) (ext : Externals)
    (hs : daysInv s) : daysInv (handle_done_activities s ext) := by
  unfold handle_done_activities
  by_cases hst : s.state ≠ BotState.SELECTING_ACTIVITIES
  · rw [if_pos hst]
    exact hs
  · rw [if_neg hst]
    push_neg at hst
    have hnd : 1 ≤ s.num_days ∧ s.num_days ≤ 5 := hs.2.1 (Or.inl hst)
    have hs1st : (if s.selected_activities = []
        then (apply_default_selections s kindActivity 0).1 else s).state =
        s.state :=
      ite_proj UserSession.state _ _ _ _ (apply_defaults_preserves s kindActivity).1 rfl
    have hs1nd : (if s.selected_activities = []
        then (apply_default_selections s kindActivity 0).1 else s).num_days =
        s.num_days :=
      ite_proj UserSession.num_days _ _ _ _
        (apply_defaults_preserves s kindActivity).2 rfl
    unfold start_food_selection
    cases hext : ext.searchFoodRes with
    | none =>
      refine ⟨fun h => ?_, fun _ => ?_, fun h => ?_⟩
      · rw [hs1st, hst] at h
        rcases h with h | h <;> exact absurd h (by decide)
      · rw [hs1nd]
        exact hnd
      · rw [hs1st, hst] at h
        rcases h with h | h <;> exact absurd h (by decide)
    | some l =>
      cases l with
      | nil =>
        refine ⟨fun h => ?_, fun _ => ?_, fun h => ?_⟩
        · rw [hs1st, hst] at h
          rcases h with h | h <;> exact absurd h (by decide)
        · rw [hs1nd]
          exact hnd
        · rw [hs1st, hst] at h
          rcases h with h | h <;> exact absurd h (by decide)
      | cons a rest =>
        refine ⟨by simp, fun _ => ?_, by simp⟩
        show 1 ≤ (if s.selected_activities = []
          then (apply_default_selections s kindActivity 0).1 else s).num_days ∧ _
        rw [hs1nd]
        exact hnd

theorem daysInv_itin_gen (s : UserSession) (ext : Externals)
    (hnd : 1 ≤ s.num_days ∧ s.num_days ≤ 5) :
    daysInv (start_itinerary_generation s ext) := by
  unfold start_itinerary_generation
  cases hgen : ext.generateRes with
  | none => exact ⟨by simp, fun _ => hnd, by simp⟩
  | some itin => exact ⟨by simp, fun _ => hnd, by simp⟩

theorem daysInv_done_fod (s : UserSession) (ext : Externals)
    (hs : daysInv s) : daysInv (handle_done_food s ext) := by
  unfold handle_done_food
  by_cases hst : s.state ≠ BotState.SELECTING_FOOD
  · rw [if_pos hst]
    exact hs
  · rw [if_neg hst]
    push_neg at hst
    have hnd : 1 ≤ s.num_days ∧ s.num_days ≤ 5 := hs.2.1 (Or.inr (Or.inl hst))
    have hs1nd : (if s.selected_eateries = []
        then (apply_default_selections s kindFood 0).1 else s).num_days =
        s.num_days :=
      ite_proj UserSession.num_days _ _ _ _
        (apply_defaults_preserves s kindFood).2 rfl
    apply daysInv_itin_gen
    rw [hs1nd]
    exact hnd

theorem daysInv_itin_action (s : UserSession) (data : List Char)
    (ext : Externals) (hs : daysInv s) :
    daysInv (handle_itinerary_action s data ext) := by
  unfold handle_itinerary_action
  by_cases hst : s.state ≠ BotState.REVIEWING_ITINERARY
  · rw [if_pos hst]
    exact hs
  · rw [if_neg hst]
    push_neg at hst
    have hnd : 1 ≤ s.num_days ∧ s.num_days ≤ 5 :=
      hs.2.1 (Or.inr (Or.inr (Or.inr hst)))
    split
    · exact daysInv_itin_gen s ext hnd
    · exact ⟨by simp, by simp, fun _ => Or.inr hnd⟩

theorem daysInv_step (s : UserSession) (e : BotEvent) (hs : daysInv s)
    (he : eventOk e) : daysInv (stepEvent s e) := by
  cases e with
  | plan =>
    show daysInv (planCommand s.chat_id)
    exact ⟨fun _ => rfl, by simp [planCommand, freshSession],
      by simp [planCommand, freshSession]⟩
  | text hres =>
    show daysInv (handle_text s hres)
    unfold handle_text
    by_cases hst : s.state = BotState.WAITING_FOR_HOTEL
    · rw [if_pos hst]
      cases hres with
      | none => exact hs
      | some h =>
        have hnd : s.num_days = 0 := hs.1 (Or.inl hst)
        exact ⟨fun _ => hnd, by simp, by simp⟩
    · rw [if_neg hst]
      exact hs
  | callback data user ext =>
    simp only [eventOk] at he
    show daysInv (handleCallback s data user ext)
    unfold handleCallback
    split_ifs with h1 h2 h3 h4 h5 h6 h7
    · exact daysInv_hotel_conf s data hs
    · have hmem : data ∈ daysKeyboardPayloads := he h2
      have hlist : daysKeyboardPayloads =
          [("days_1".toList), ("days_2".toList), ("days_3".toList),
           ("days_4".toList), ("days_5".toList)] := by decide
      rw [hlist] at hmem
      fin_cases hmem
      · exact daysInv_handle_days s ext _ 1 (by decide) (by decide) (by decide) hs
      · exact daysInv_handle_days s ext _ 2 (by decide) (by decide) (by decide) hs
      · exact daysInv_handle_days s ext _ 3 (by decide) (by decide) (by decide) hs
      · exact daysInv_handle_days s ext _ 4 (by decide) (by decide) (by decide) hs
      · exact daysInv_handle_days s ext _ 5 (by decide) (by decide) (by decide) hs
    · exact daysInv_congr (handle_selection_preserves s data kindActivity user).1
        (handle_selection_preserves s data kindActivity user).2 hs
    · exact daysInv_congr (handle_selection_preserves s data kindFood user).1
        (handle_selection_preserves s data kindFood user).2 hs
    · exact daysInv_done_act s ext hs
    · exact daysInv_done_fod s ext hs
    · exact daysInv_itin_action s data ext hs
    · exact hs

/-- C9, amended.  In every session reachable from a fresh session by any
sequence of plan, text, and callback events whose days payloads all come
from the days keyboard (`days_1` … `days_5`), `num_days` is 0 in the states
before the days pick (`WAITING_FOR_HOTEL`, `CONFIRMING_HOTEL`) and lies in
1–5 in every state after it; the handler itself performs no range check, so
a forged payload such as `days_7` escapes the bound (see the
counterexample). -/
theorem c9_days_amended (cid : Int) (evs : List BotEvent)
    (hok : ∀ e ∈ evs, eventOk e) : daysInv (runEvents cid evs) := by
  have hgen : ∀ (evs2 : List BotEvent) (s : UserSession), daysInv s →
      (∀ e ∈ evs2, eventOk e) → daysInv (evs2.foldl stepEvent s) := by
    intro evs2
    induction evs2 with
    | nil => intro s hs _; exact hs
    | cons e rest ih =>
      intro s hs hok2
      rw [List.foldl_cons]
      exact ih _ (daysInv_step s e hs (hok2 e (by simp)))
        (fun e2 he2 => hok2 e2 (by simp [he2]))
  exact hgen evs (freshSession cid)
    ⟨by simp [freshSession], by simp [freshSession], fun _ => Or.inl rfl⟩ hok

/-- Witness for C9: the flow `/plan`, hotel text, confirm, pick `days_3`
(keyboard payload) keeps the invariant. -/
theorem c9_days_amended_witness :
    daysInv (runEvents 0
      [BotEvent.plan,
       BotEvent.text (some ⟨"h".toList, "H".toList, "L".toList, "high".toList⟩),
       BotEvent.callback ("htl_yes".toList) 9
         { searchActivitiesRes := none, searchFoodRes := none,
           generateRes := none },
       BotEvent.callback ("days_3".toList) 9
         { searchActivitiesRes := none, searchFoodRes := none,
           generateRes := none }]) := by
  apply c9_days_amended
  intro e he
  simp at he
  rcases he with rfl | rfl | rfl | rfl
  · trivial
  · trivial
  · intro h
    exact absurd h (by decide)
  · intro h
    decide

/-- The externals for the C9 counterexample: the activity search succeeds
with one candidate, so the days handler advances past the days step. -/
def c9Externals : Externals :=
  { searchActivitiesRes := some
      [{ id := "001".toList, name := "A".toList, location := [],
         date_time := [], description := [], url := [],
         activity_type := kindActivity }],
    searchFoodRes := none, generateRes := none }

/-- C9, counterexample.  The forged payload `days_7` is accepted while the
session is in `SELECTING_DAYS` (there is no range check): the days step
completes — the session moves to `SELECTING_ACTIVITIES` — with
`num_days = 7`, outside the claimed range 1–5. -/
theorem c9_counterexample :
    ((handleCallback { freshSession 7 with state := BotState.SELECTING_DAYS }
      ("days_7".toList) 9 c9Externals).state =
        BotState.SELECTING_ACTIVITIES) ∧
    ((handleCallback { freshSession 7 with state := BotState.SELECTING_DAYS }
      ("days_7".toList) 9 c9Externals).num_days = 7) ∧
    ¬((handleCallback { freshSession 7 with state := BotState.SELECTING_DAYS }
      ("days_7".toList) 9 c9Externals).num_days ≤ 5) := by
  refine ⟨by decide, by decide, by decide⟩

/-! ### Chunking (C6) -/

theorem splitNN_ne_nil : ∀ t : List Char, splitNN t ≠ [] := by
  intro t
  match t with
  | [] => simp [splitNN]
  | [c] => simp [splitNN]
  | c1 :: c2 :: t2 =>
    by_cases h : c1 = '\n' ∧ c2 = '\n'
    · simp [splitNN, h]
    · rcases hsp : splitNN (c2 :: t2) with _ | ⟨h0, r⟩ <;>
        simp [splitNN, h, hsp]

theorem joinNN_cons_of_ne_nil (a : List Char) {l : List (List Char)}
    (h : l ≠ []) : joinNN (a :: l) = a ++ '\n' :: '\n' :: joinNN l := by
  cases l with
  | nil => exact absurd rfl h
  | cons b r => rfl

theorem joinNN_splitNN : ∀ t : List Char, joinNN (splitNN t) = t := by
  intro t
  induction t using splitNN.induct with
  | case1 => rfl
  | case2 c => rfl
  | case3 c1 c2 t2 h ih =>
    obtain ⟨rfl, rfl⟩ := h
    show joinNN (splitNN ('\n' :: '\n' :: t2)) = _
    rw [splitNN]
    rw [if_pos ⟨rfl, rfl⟩]
    rw [joinNN_cons_of_ne_nil [] (splitNN_ne_nil t2), ih]
    rfl
  | case4 c1 c2 t2 h hsp ih =>
    exact absurd hsp (splitNN_ne_nil (c2 :: t2))
  | case5 c1 c2 t2 h h0 r hsp ih =>
    show joinNN (splitNN (c1 :: c2 :: t2)) = _
    rw [splitNN, if_neg h, hsp]
    rw [hsp] at ih
    cases r with
    | nil =>
      show c1 :: h0 = c1 :: c2 :: t2
      have : joinNN [h0] = c2 :: t2 := ih
      simp [joinNN] at this
      rw [this]
    | cons r0 rs =>
      show (c1 :: h0) ++ '\n' :: '\n' :: joinNN (r0 :: rs) = c1 :: c2 :: t2
      have : h0 ++ '\n' :: '\n' :: joinNN (r0 :: rs) = c2 :: t2 := ih
      rw [List.cons_append, this]

/-- No leading and no trailing whitespace (so that `str.strip` is the
identity). -/
def noEdgeSpaceB (l : List Char) : Bool :=
  (match l.head? with
   | none => true
   | some c => !pyIsSpace c) &&
  (match l.getLast? with
   | none => true
   | some c => !pyIsSpace c)

theorem stripChars_eq_self {l : List Char} (h : noEdgeSpaceB l = true) :
    stripChars l = l := by
  cases l with
  | nil => rfl
  | cons c t =>
    unfold noEdgeSpaceB at h
    simp only [List.head?_cons, Bool.and_eq_true] at h
    have hc : pyIsSpace c = false := by
      have := h.1
      simpa using this
    unfold stripChars
    rw [List.dropWhile_cons, hc]
    simp only [Bool.false_eq_true, if_false, ite_false]
    rcases hrev : (c :: t).reverse with _ | ⟨d, r⟩
    · exact absurd hrev (by simp)
    · have hd : (c :: t).getLast? = some d := by
        rw [← List.head?_reverse, hrev]
        rfl
      have hdn : pyIsSpace d = false := by
        have := h.2
        rw [hd] at this
        simpa using this
      rw [List.dropWhile_cons, hdn]
      simp only [Bool.false_eq_true, if_false, ite_false]
      rw [← hrev, List.reverse_reverse]

theorem noEdgeSpaceB_append (a b mid : List Char) (ha : a ≠ []) (hb : b ≠ [])
    (hA : noEdgeSpaceB a = true) (hB : noEdgeSpaceB b = true) :
    noEdgeSpaceB (a ++ mid ++ b) = true := by
  have hmb : mid ++ b ≠ [] := by
    intro hh
    rcases List.append_eq_nil.mp hh with ⟨_, h2⟩
    exact hb h2
  have hlast : (a ++ mid ++ b).getLast? = b.getLast? := by
    rw [List.append_assoc, List.getLast?_append_of_ne_nil a hmb,
      List.getLast?_append_of_ne_nil mid hb]
  have hhead : (a ++ mid ++ b).head? = a.head? := by
    rcases a with _ | ⟨c, t⟩
    · exact absurd rfl ha
    · rfl
  unfold noEdgeSpaceB at *
  simp only [Bool.and_eq_true] at hA hB ⊢
  rw [hhead, hlast]
  exact ⟨hA.1, hB.2⟩

theorem joinNN_glue (a b : List Char) (l : List (List Char)) :
    joinNN ((a ++ '\n' :: '\n' :: b) :: l) = joinNN (a :: b :: l) := by
  cases l with
  | nil => rfl
  | cons c r =>
    show (a ++ '\n' :: '\n' :: b) ++ '\n' :: '\n' :: joinNN (c :: r) =
      a ++ '\n' :: '\n' :: (b ++ '\n' :: '\n' :: joinNN (c :: r))
    simp [List.append_assoc]

theorem chunksLoop_join (w : Nat) :
    ∀ (ps : List (List Char)) (current : List Char) (chunks : List (List Char)),
      (∀ p ∈ ps, p ≠ [] ∧ p.length ≤ w ∧ noEdgeSpaceB p = true) →
      current ≠ [] → current.length ≤ w → noEdgeSpaceB current = true →
      ∃ rest, chunksLoop w ps current chunks = chunks ++ rest ∧ rest ≠ [] ∧
        joinNN rest = joinNN (current :: ps) ∧ ∀ c ∈ rest, c.length ≤ w := by
  intro ps
  induction ps with
  | nil =>
    intro current chunks _ hcne hclen _
    refine ⟨[current], by simp [chunksLoop, hcne], by simp, rfl, ?_⟩
    intro c hc
    simp at hc
    subst hc
    exact hclen
  | cons p ps2 ih =>
    intro current chunks hps hcne hclen hcedge
    have hp := hps p (by simp)
    have hedge2 : noEdgeSpaceB (current ++ '\n' :: '\n' :: p) = true := by
      have := noEdgeSpaceB_append current p ['\n', '\n'] hcne hp.1 hcedge hp.2.2
      rwa [List.append_assoc] at this
    have hcand : (if current = [] then p
        else stripChars (current ++ '\n' :: '\n' :: p)) =
        current ++ '\n' :: '\n' :: p := by
      rw [if_neg hcne]
      exact stripChars_eq_self hedge2
    by_cases hfit : (current ++ '\n' :: '\n' :: p).length ≤ w
    · have hstep : chunksLoop w (p :: ps2) current chunks =
          chunksLoop w ps2 (current ++ '\n' :: '\n' :: p) chunks := by
        simp only [chunksLoop, hcand]
        rw [if_pos hfit]
      rw [hstep]
      obtain ⟨rest, h1, h2, h3, h4⟩ := ih (current ++ '\n' :: '\n' :: p) chunks
        (fun q hq => hps q (by simp [hq])) (by simp [hcne]) hfit hedge2
      refine ⟨rest, h1, h2, ?_, h4⟩
      rw [h3, joinNN_glue]
    · have hnotlong : ¬(w < p.length) := by omega
      have hstep : chunksLoop w (p :: ps2) current chunks =
          chunksLoop w ps2 p (chunks ++ [current]) := by
        simp only [chunksLoop, hcand]
        rw [if_neg hfit, if_neg hcne, if_neg hnotlong]
      rw [hstep]
      obtain ⟨rest2, h1, h2, h3, h4⟩ := ih p (chunks ++ [current])
        (fun q hq => hps q (by simp [hq])) hp.1 hp.2.1 hp.2.2
      refine ⟨current :: rest2, ?_, by simp, ?_, ?_⟩
      · rw [h1]
        simp
      · rw [joinNN_cons_of_ne_nil current h2, h3]
        rfl
      · intro c hc
        rcases List.mem_cons.mp hc with rfl | hc2
        · exact hclen
        · exact h4 c hc2

/-- C6, amended.  A text at or under the maximum length is returned as the
single chunk equal to the input (unconditionally).  Re-inserting the
paragraph separator between the returned chunks reproduces the original text
— and no chunk exceeds the maximum — when every paragraph of the input is
non-empty, at most the maximum long, and free of leading/trailing
whitespace; in general the reconstruction fails (a leading empty paragraph
is dropped and hard-wrapped pieces of an over-long paragraph were adjacent
without any separator — see the counterexample). -/
theorem c6_chunking_amended (text : List Char) (w : Nat) :
    (text.length ≤ w → split_into_chunks text w = [text]) ∧
    ((∀ p ∈ splitNN text, p ≠ [] ∧ p.length ≤ w ∧ noEdgeSpaceB p = true) →
      joinNN (split_into_chunks text w) = text ∧
      ∀ c ∈ split_into_chunks text w, c.length ≤ w) := by
  constructor
  · intro h
    unfold split_into_chunks
    rw [if_pos h]
  · intro hps
    by_cases hlen : text.length ≤ w
    · unfold split_into_chunks
      rw [if_pos hlen]
      refine ⟨rfl, ?_⟩
      intro c hc
      simp at hc
      subst hc
      exact hlen
    · unfold split_into_chunks
      rw [if_neg hlen]
      rcases hsp : splitNN text with _ | ⟨p0, rest0⟩
      · exact absurd hsp (splitNN_ne_nil text)
      · have hp0 := hps p0 (by rw [hsp]; simp)
        have hrest : ∀ p ∈ rest0, p ≠ [] ∧ p.length ≤ w ∧ noEdgeSpaceB p = true :=
          fun p hp => hps p (by rw [hsp]; simp [hp])
        have hstep : chunksLoop w (p0 :: rest0) [] [] =
            chunksLoop w rest0 p0 [] := by
          simp only [chunksLoop, if_pos rfl, if_true, ite_true]
          rw [if_pos hp0.2.1]
        rw [hstep]
        obtain ⟨rest, h1, h2, h3, h4⟩ := chunksLoop_join w rest0 p0 []
          hrest hp0.1 hp0.2.1 hp0.2.2
        rw [h1]
        simp only [List.nil_append]
        refine ⟨?_, h4⟩
        rw [h3]
        have hjoin : joinNN (p0 :: rest0) = joinNN (splitNN text) := by rw [hsp]
        rw [hjoin, joinNN_splitNN]

/-- Witness for C6's amended statement at a concrete two-paragraph text that
must be split. -/
theorem c6_chunking_amended_witness :
    joinNN (split_into_chunks ("ab\n\ncd".toList) 4) = "ab\n\ncd".toList ∧
    ∀ c ∈ split_into_chunks ("ab\n\ncd".toList) 4, c.length ≤ 4 :=
  (c6_chunking_amended ("ab\n\ncd".toList) 4).2 (by decide)

/-- C6, counterexample.  For the text `"\n\nabcd"` and maximum length 4 the
chunker returns the single chunk `"abcd"`: the leading empty paragraph is
dropped, so re-inserting the separator between the returned chunks does not
reproduce the original text. -/
theorem c6_counterexample :
    split_into_chunks ("\n\nabcd".toList) 4 = [("abcd".toList)] ∧
    joinNN (split_into_chunks ("\n\nabcd".toList) 4) ≠ "\n\nabcd".toList := by
  constructor
  · decide
  · decide

end TripBot
